import Mathlib

/-!
Verification development for the quantity-validation, collection and
merge/serialization core of the mammos-entity package.

The Python sources are shallowly embedded as executable Lean definitions:

* `src/mammos_entity/_entity.py` — the `Entity` class (construction,
  equality, the mutable `description` property);
* `src/mammos_entity/io.py` — the CSV/YAML codecs and the attribute-based
  `EntityCollection` used by `merge`;
* `src/mammos_entity/operations.py` — `concat_flat` and `merge`;
* `src/mammos_entity/_entity_collection.py` — the dict-backed
  `EntityCollection` (attribute sugar, shadow rule, `from_dataframe`).

External collaborators (the astropy-based unit algebra, the EMMO ontology
store, pandas, the csv/yaml codecs) are modelled by small executable
structures that reflect exactly the behaviour the embedded code relies on:
units are a rational scale over an integer dimension vector, the ontology
is a finite label table giving each concept its IRI and resolved SI unit,
dataframes are ordered column lists, and file contents are structured
records whose fields correspond one-to-one to the lines and rows the
Python code writes and reads.  Numbers are rationals, so no floating-point
rounding is modelled; the numeric-closeness predicate `allcloseQ` mirrors
`astropy.units.allclose` (rtol 1e-5, atol 0).
-/

namespace MammosEntity

/-- Physical dimension vector: exponents of length, mass, time, electric
current and thermodynamic temperature.  This is the fragment of the SI
dimension system exercised by the embedded code. -/
structure Dims where
  length : ℤ
  mass : ℤ
  time : ℤ
  current : ℤ
  temp : ℤ
deriving DecidableEq, Repr

/-- A unit of the external unit algebra: a rational scale factor relative
to the coherent SI unit of its dimension vector.  `astropy` unit equality
is modelled as equality of scale and dimensions; `is_equivalent` is
equality of dimensions only. -/
structure MUnit where
  scale : ℚ
  dims : Dims
deriving DecidableEq, Repr

/-- Dimensionless (the empty unit string of astropy). -/
def dimensionlessU : MUnit := ⟨1, ⟨0, 0, 0, 0, 0⟩⟩

/-- The percent unit: dimensionless with scale 1/100 (astropy `u.percent`,
spelled "%", a non-empty unit string convertible to the empty unit). -/
def percentU : MUnit := ⟨1 / 100, ⟨0, 0, 0, 0, 0⟩⟩

/-- Ampere per metre. -/
def AmPerM : MUnit := ⟨1, ⟨-1, 0, 0, 1, 0⟩⟩

/-- Kiloampere per metre. -/
def kAmPerM : MUnit := ⟨1000, ⟨-1, 0, 0, 1, 0⟩⟩

/-- Milliampere per metre. -/
def mAmPerM : MUnit := ⟨1 / 1000, ⟨-1, 0, 0, 1, 0⟩⟩

/-- Tesla. -/
def teslaU : MUnit := ⟨1, ⟨0, 1, -2, -1, 0⟩⟩

/-- Kelvin. -/
def kelvinU : MUnit := ⟨1, ⟨0, 0, 0, 0, 1⟩⟩

/-- Metre. -/
def metreU : MUnit := ⟨1, ⟨1, 0, 0, 0, 0⟩⟩

/-- Millimetre. -/
def mmU : MUnit := ⟨1 / 1000, ⟨1, 0, 0, 0, 0⟩⟩

/-- Joule per metre. -/
def JPerM : MUnit := ⟨1, ⟨1, 1, -2, 0, 0⟩⟩

/-- `UnitBase.is_equivalent` under the `mammos_equivalencies` context
(`u.temperature()`): convertibility is equality of dimension vectors.  The
temperature equivalency only affects affine scales (Celsius), which the
package filters out of default units via `set_enabled_aliases`, so it does
not change convertibility in the fragment in use. -/
def isEquivalent (a b : MUnit) : Bool := a.dims == b.dims

/-- Numeric conversion factor of `Quantity.to`: values are multiplied by
the ratio of the scales (defined only used when dimensions agree). -/
def convFactor (source target : MUnit) : ℚ := source.scale / target.scale

/-- An n-dimensional numeric array, stored as row-major flat data plus a
shape; a scalar has shape `[]`. -/
structure NumArr where
  shape : List ℕ
  data : List ℚ
deriving DecidableEq, Repr

/-- `numpy.ndarray.flatten(order="C")`: the row-major flat vector. -/
def NumArr.flatten (a : NumArr) : NumArr := ⟨[a.data.length], a.data⟩

/-- A `mammos_units.Quantity`: a numeric array together with a unit. -/
structure MQuantity where
  arr : NumArr
  unit : MUnit
deriving DecidableEq, Repr

/-- Convert a quantity to a target unit (`Quantity.to`); the caller must
have checked `isEquivalent`. -/
def MQuantity.convertTo (q : MQuantity) (target : MUnit) : MQuantity :=
  ⟨⟨q.arr.shape, q.arr.data.map (· * convFactor q.unit target)⟩, target⟩

/-- A cell of a raw (unit-less, label-less) value: a number or a string. -/
inductive Cell where
  | num (q : ℚ)
  | str (s : String)
deriving DecidableEq, Repr

/-- A raw array-like value (numbers or strings), shape `[]` for scalars. -/
structure RawArr where
  shape : List ℕ
  data : List Cell
deriving DecidableEq, Repr

/-- The relative tolerance of `numpy.isclose` / `astropy.units.allclose`
as used by `Entity.__eq__` (rtol 1e-5; atol defaults to zero). -/
def rtol : ℚ := 1 / 100000

/-- `astropy.units.allclose(actual, desired)` on flat data after `desired`
has been converted to the unit of `actual`: equal lengths and elementwise
`|a - d| <= rtol * |d|`.  Rationals carry no NaN, so `equal_nan` has no
effect in the model. -/
def allcloseQ : List ℚ → List ℚ → Bool
  | [], [] => true
  | a :: as, d :: ds => (decide (|a - d| ≤ rtol * |d|)) && allcloseQ as ds
  | _, _ => false

/-- An ontology concept as consumed by the package: its IRI and the SI
unit resolved for it by `_extract_SI_units` (dimensionless for concepts
that declare no measurement unit). -/
structure Concept where
  iri : String
  si : MUnit
deriving DecidableEq, Repr

/-- The ontology store (external collaborator, bundled ttl files): a
finite label table covering the concepts exercised here.  IRIs are opaque
identifier strings. -/
def ontologyTable : List (String × Concept) :=
  [("SpontaneousMagnetization", ⟨"iri-ms", AmPerM⟩),
   ("ExternalMagneticField", ⟨"iri-h", AmPerM⟩),
   ("Magnetization", ⟨"iri-m", AmPerM⟩),
   ("CurieTemperature", ⟨"iri-tc", kelvinU⟩),
   ("ThermodynamicTemperature", ⟨"iri-t", kelvinU⟩),
   ("DemagnetizingFactor", ⟨"iri-nd", dimensionlessU⟩),
   ("ExchangeStiffnessConstant", ⟨"iri-a", JPerM⟩),
   ("Length", ⟨"iri-len", metreU⟩)]

/-- `mammos_ontology.get_by_label`: `none` models the `NoSuchLabelError`
raised for an unknown label. -/
def getByLabel (label : String) : Option Concept :=
  (ontologyTable.find? (fun p => p.1 == label)).map Prod.snd

/-- Result of `_extract_SI_units` composed with `u.Unit`: the SI unit the
ontology resolves for a label (the ancestor walk itself runs inside the
external ontology store; only its result is consumed by `Entity`). -/
def extractSIUnits (label : String) : Option MUnit :=
  (getByLabel label).map Concept.si

/-- The Python exceptions surfaced by the embedded code. -/
inductive MErr where
  | valueError (msg : String)
  | unitConversionError (msg : String)
  | runtimeError (msg : String)
  | keyError (msg : String)
  | attributeError (msg : String)
  | lookupError (msg : String)
deriving DecidableEq, Repr

/-- `mammos_entity.Entity`: concept label, quantity and description
(fields `_ontology_label`, `_quantity`, `_description`). -/
structure Entity where
  ontology_label : String
  quantity : MQuantity
  description : String
deriving DecidableEq, Repr

/-- The value argument accepted by `Entity.__init__`: a raw numeric
array-like, a quantity, or another entity. -/
inductive InitValue where
  | arr (a : NumArr)
  | quantity (q : MQuantity)
  | entity (e : Entity)
deriving DecidableEq, Repr

/-- `Entity.__init__(ontology_label, value, unit, description)`.
Transcribed from `_entity.py`:
1. an entity value must carry the same label (else `ValueError`) and is
   unwrapped to its quantity;
2. with no unit argument, a quantity value donates its unit;
3. the label is resolved to its SI unit (`NoSuchLabelError` if unknown);
4. with no unit the SI unit is decomposed to a coherent base-unit
   composite (scale 1); with a unit, convertibility to the SI unit is
   checked (`UnitConversionError` if it fails);
5. the stored quantity attaches the unit to raw data, or converts a
   quantity value to the chosen unit. -/
def entityFinish (ontology_label : String) (value : InitValue)
    (chosen : MUnit) (description : String) : Except MErr Entity :=
  match value with
  | .arr a => .ok ⟨ontology_label, ⟨a, chosen⟩, description⟩
  | .quantity qq =>
      if isEquivalent qq.unit chosen then
        .ok ⟨ontology_label, qq.convertTo chosen, description⟩
      else .error (.unitConversionError "Incompatible value unit.")
  | .entity _ => .error (.valueError "unreachable")

def entityInitCore (ontology_label : String) (value : InitValue)
    (unit : Option MUnit) (description : String) : Except MErr Entity :=
  let unit := match unit, value with
    | none, .quantity q => some q.unit
    | uu, _ => uu
  match extractSIUnits ontology_label with
  | none => .error (.lookupError "No label found in the ontology.")
  | some si =>
    match unit with
    | none => entityFinish ontology_label value ⟨1, si.dims⟩ description
    | some uu =>
        if isEquivalent si uu then
          entityFinish ontology_label value uu description
        else .error (.unitConversionError
          "The unit is not equivalent to the ontology unit.")

def entityInit (ontology_label : String) (value : InitValue)
    (unit : Option MUnit) (description : String) : Except MErr Entity :=
  match value with
  | .entity e =>
      if e.ontology_label ≠ ontology_label then
        .error (.valueError "Incompatible label for initialization.")
      else
        entityInitCore ontology_label (.quantity e.quantity) unit description
  | v => entityInitCore ontology_label v unit description

/-- `Entity.__eq__` for two entities: same label, same shape, and
`u.allclose(self.q, other.q)` (the other quantity is converted to the unit
of `self`; rtol 1e-5, atol 0; `description` is not consulted). -/
def entityEq (a b : Entity) : Bool :=
  a.ontology_label == b.ontology_label &&
  a.quantity.arr.shape == b.quantity.arr.shape &&
  allcloseQ a.quantity.arr.data (b.quantity.convertTo a.quantity.unit).arr.data

/-- The `description` property setter of `Entity`: accepts a string (the
only mutation the class exposes); a non-string raises `ValueError`.  The
in-place Python assignment is modelled by returning the updated entity. -/
def setDescription (e : Entity) (value : String) : Except MErr Entity :=
  .ok { e with description := value }

/-- Well-formedness of an entity as established by `entityInit`: its label
resolves in the ontology and its unit is convertible to the resolved SI
unit. -/
def wfEntity (e : Entity) : Bool :=
  match extractSIUnits e.ontology_label with
  | some si => isEquivalent si e.quantity.unit
  | none => false

/-- Recognizer for the `u.UnitConversionError` outcome of a construction. -/
def isUnitConversionError : Except MErr Entity → Bool
  | .error (.unitConversionError _) => true
  | _ => false

/-- An entity-like value (`mammos_entity.typing.EntityLike`): an `Entity`,
a plain quantity, or a raw array-like of numbers or strings. -/
inductive EntityLike where
  | entity (e : Entity)
  | quantity (q : MQuantity)
  | raw (r : RawArr)
deriving DecidableEq, Repr

/-- An argument of `concat_flat`: a single entity-like, or a list/tuple of
entity-likes (which the function splices, not nests). -/
inductive ConcatArg where
  | single (e : EntityLike)
  | seq (es : List EntityLike)
deriving DecidableEq, Repr

/-- The first loop of `concat_flat`: list/tuple arguments are extended
into the element list, everything else appended as one element. -/
def spliceArgs : List ConcatArg → List EntityLike
  | [] => []
  | .single e :: rest => e :: spliceArgs rest
  | .seq es :: rest => es ++ spliceArgs rest

/-- The `ontology_labels` list collected by `concat_flat`: the labels of
the entity elements, in order. -/
def entityLabels (elems : List EntityLike) : List String :=
  elems.filterMap fun e =>
    match e with
    | .entity e => some e.ontology_label
    | _ => none

/-- The `first_unit` variable of `concat_flat`: the unit of the first
entity element, if any. -/
def firstEntityUnit (elems : List EntityLike) : Option MUnit :=
  elems.findSome? fun e =>
    match e with
    | .entity e => some e.quantity.unit
    | _ => none

/-- The per-element step of the second loop of `concat_flat`: an entity or
quantity is flattened and converted to the target unit with `.to`
(failing with `UnitConversionError` when the units are not convertible); a
raw value is flattened and multiplied by the target unit with no
conversion, which requires its cells to be numeric. -/
def flattenConvert (target : MUnit) : EntityLike → Except MErr (List ℚ)
  | .entity e =>
      if isEquivalent e.quantity.unit target then
        .ok ((e.quantity.convertTo target).arr.data)
      else .error (.unitConversionError "units are not convertible")
  | .quantity q =>
      if isEquivalent q.unit target then .ok ((q.convertTo target).arr.data)
      else .error (.unitConversionError "units are not convertible")
  | .raw r =>
      if r.data.all (fun c => match c with | .num _ => true | .str _ => false)
      then
        .ok (r.data.filterMap fun c =>
          match c with | .num q => some q | .str _ => none)
      else .error (.valueError "cannot attach a unit to non-numeric data")

/-- The second loop of `concat_flat`, run in input order; the first
failing element determines the raised error. -/
def mapFlattenConvert (target : MUnit) : List EntityLike →
    Except MErr (List (List ℚ))
  | [] => .ok []
  | e :: rest =>
    match flattenConvert target e with
    | .error err => .error err
    | .ok dd =>
      match mapFlattenConvert target rest with
      | .error err => .error err
      | .ok ds => .ok (dd :: ds)

/-- `operations.concat_flat(*elements, unit=None, description="")`,
transcribed from `operations.py`: splice list/tuple arguments; require at
least one entity (`ValueError`) and a single shared ontology label
(`ValueError`); take the explicit unit if given, else the first entity
unit; flatten and convert every element to that target unit; concatenate
in input order; build the resulting entity via `Entity.__init__`. -/
def concatFlat (args : List ConcatArg) (unit : Option MUnit)
    (description : String) : Except MErr Entity :=
  match entityLabels (spliceArgs args) with
  | [] => .error (.valueError "At least one Entity is required.")
  | l₀ :: rest =>
    if rest.any (fun l => l ≠ l₀) then
      .error (.valueError
        "Entities with different ontology labels are not supported.")
    else
      match firstEntityUnit (spliceArgs args) with
      | none => .error (.valueError "unreachable: an entity exists")
      | some fu =>
        match mapFlattenConvert (unit.getD fu) (spliceArgs args) with
        | .error err => .error err
        | .ok datas =>
            entityInit l₀ (.arr ⟨[datas.flatten.length], datas.flatten⟩)
              (some (unit.getD fu)) description

/-! ### The attribute-based `EntityCollection` of `io.py` and `merge` -/
/-- `mammos_entity.io.EntityCollection`: entity-likes are stored as plain
instance attributes next to `_description` (the class has no separate
entity dictionary).  `attrs` lists the instance dictionary minus
`_description`, in insertion order. -/
structure IoCollection where
  description : String
  attrs : List (String × EntityLike)
deriving DecidableEq, Repr

/-- Result of `getattr` on an `io.EntityCollection`: an entity-like
attribute, or the description string (reachable both through the
`description` property and the `_description` instance slot). -/
inductive IoAttr where
  | like (v : EntityLike)
  | descStr (s : String)
deriving DecidableEq, Repr

/-- Python `getattr(collection, name)`; `none` models `AttributeError`. -/
def ioGetattr (c : IoCollection) (name : String) : Option IoAttr :=
  if name = "_description" ∨ name = "description" then some (.descStr c.description)
  else (c.attrs.find? (fun p => p.1 == name)).map (fun p => IoAttr.like p.2)

/-- Python `hasattr(collection, name)`: true for the instance attributes
and for the members of the class itself. -/
def ioHasattr (c : IoCollection) (name : String) : Bool :=
  name == "description" || name == "_description" ||
    name == "to_dataframe" || name == "_elements_dictionary" ||
    c.attrs.any (fun p => p.1 == name)

/-- Update an association list in place, appending when the key is new
(Python attribute assignment on the instance dictionary). -/
def assocSet {α : Type} : List (String × α) → String → α → List (String × α)
  | [], n, v => [(n, v)]
  | a :: rest, n, v =>
      if a.1 = n then (a.1, v) :: rest else a :: assocSet rest n v

/-- Python `setattr(collection, name, value)` for an entity-like value. -/
def ioSetattr (c : IoCollection) (name : String) (v : EntityLike) :
    IoCollection :=
  ⟨c.description, assocSet c.attrs name v⟩

/-- The `__dict__` key list of an `io.EntityCollection` (insertion order:
`_description` is assigned first in `__init__`). -/
def ioDictKeys (c : IoCollection) : List String :=
  "_description" :: c.attrs.map Prod.fst

/-- `copy.deepcopy`: on the pure values of the embedding the copy is the
value itself; its significance in `merge` is that every subsequent update
is applied to the copy, never to the caller's argument. -/
def deepcopy (c : IoCollection) : IoCollection := c

/-- A pandas dataframe as used by `merge`: named columns of cells, in
column order. -/
def DataFrame := List (String × List Cell)

/-- `io.EntityCollection.to_dataframe(include_units=False)`: each
attribute contributes its numeric `.value` (entities and quantities) or
itself (raw values) as a column; pandas accepts only one-dimensional
columns of a common length (`ValueError` otherwise). -/
def ioToDataframe (c : IoCollection) : Except MErr DataFrame :=
  match colsOf c.attrs with
  | .error err => .error err
  | .ok cols =>
    if (cols.map (fun p => p.2.length)).all
        (fun n => n = (cols.map (fun p => p.2.length)).headD 0) then .ok cols
    else .error (.valueError "All arrays must be of the same length")
where
  colsOf : List (String × EntityLike) →
      Except MErr (List (String × List Cell))
    | [] => .ok []
    | (n, v) :: rest =>
      match cellsOf v with
      | .error err => .error err
      | .ok cs =>
        match colsOf rest with
        | .error err => .error err
        | .ok cols => .ok ((n, cs) :: cols)
  cellsOf : EntityLike → Except MErr (List Cell)
    | .entity e =>
        if e.quantity.arr.shape = [e.quantity.arr.data.length] then
          .ok (e.quantity.arr.data.map Cell.num)
        else .error (.valueError "Data must be 1-dimensional")
    | .quantity q =>
        if q.arr.shape = [q.arr.data.length] then
          .ok (q.arr.data.map Cell.num)
        else .error (.valueError "Data must be 1-dimensional")
    | .raw r =>
        if r.shape = [r.data.length] then .ok r.data
        else .error (.valueError "Data must be 1-dimensional")

/-- The keyword arguments `merge` inspects and forwards to `pandas.merge`.
An `on`/`left_on`/`right_on` value that Python receives as a single
string is modelled as a one-element list. -/
structure MergeKwargs where
  how : Option String := none
  onKeys : Option (List String) := none
  left_on : Option (List String) := none
  right_on : Option (List String) := none
  suffixes : Option (String × String) := none
  indicator : Bool := false
deriving DecidableEq, Repr

/-- Column names of a dataframe. -/
def dfNames (df : DataFrame) : List String := df.map Prod.fst

/-- Cell of column `n` at row `i` (dataframes in use are rectangular). -/
def dfCell (df : DataFrame) (n : String) (i : ℕ) : Cell :=
  match df.find? (fun p => p.1 == n) with
  | some p => p.2.getD i (.num 0)
  | none => .num 0

/-- Row count of a dataframe (length of its first column). -/
def dfRows (df : DataFrame) : ℕ := (df.map (fun p => p.2.length)).headD 0

/-- `pandas.merge` (external tabular engine) for the default inner join:
rows are matched on equality of all key columns, in left-row-major order;
result columns are the left columns followed by the right non-key
columns, with overlapping non-key names suffixed by the `suffixes` pair;
`indicator=True` appends a `_merge` column (all rows of an inner join are
"both").  Join types other than the default inner join, and
`left_on`/`right_on` key pairs, are outside the modelled fragment and are
reported as an error, which only widens the error cases of `merge`. -/
def pdMerge (ldf rdf : DataFrame) (kw : MergeKwargs) :
    Except MErr DataFrame :=
  if kw.how.getD "inner" ≠ "inner" then
    .error (.valueError "join type outside the modelled fragment")
  else if kw.left_on.isSome || kw.right_on.isSome then
    .error (.valueError "left_on/right_on outside the modelled fragment")
  else
    let common := (dfNames ldf).filter (fun n => (dfNames rdf).contains n)
    let keys := match kw.onKeys with
      | some ks => if ks = [] then common else ks
      | none => common
    if ¬ keys.all (fun k => (dfNames ldf).contains k &&
        (dfNames rdf).contains k) then
      .error (.keyError "merge key not found in both frames")
    else
      let overlap := common.filter (fun n => ¬ keys.contains n)
      let sfx := kw.suffixes.getD ("_x", "_y")
      if overlap ≠ [] ∧ sfx.1 = "" ∧ sfx.2 = "" then
        .error (.valueError "columns overlap but no suffix specified")
      else
        let pairs := (List.range (dfRows ldf)).flatMap (fun i =>
          (List.range (dfRows rdf)).filterMap (fun j =>
            if keys.all (fun k => dfCell ldf k i == dfCell rdf k j) then
              some (i, j)
            else none))
        let leftCols := ldf.map (fun p =>
          (if overlap.contains p.1 then p.1 ++ sfx.1 else p.1,
           pairs.map (fun ij => p.2.getD ij.1 (.num 0))))
        let rightCols := (rdf.filter (fun p => ¬ keys.contains p.1)).map
          (fun p =>
            (if overlap.contains p.1 then p.1 ++ sfx.2 else p.1,
             pairs.map (fun ij => p.2.getD ij.2 (.num 0))))
        let base := leftCols ++ rightCols
        if kw.indicator then
          .ok (base ++ [("_merge", pairs.map (fun _ => Cell.str "both"))])
        else .ok base

/-- Entity-wellformedness of every entity stored in a collection. -/
def wfColl (c : IoCollection) : Bool :=
  c.attrs.all (fun p =>
    match p.2 with
    | .entity e => wfEntity e
    | _ => true)

/-- The `matching_keys` set of `merge`: the `on` keys when a non-empty
`on` is passed, else the common `__dict__` keys of the two collections
(iterated here in the preferred collection's insertion order; Python
iterates the set in an unspecified order). -/
def matchingKeysOf (pref other : IoCollection) (kw : MergeKwargs) :
    List String :=
  match kw.onKeys with
  | some ks => if ks = [] then commonKeys else ks
  | none => commonKeys
where
  commonKeys : List String :=
    (ioDictKeys pref).filter (fun k => (ioDictKeys other).contains k)

/-- Python object store for the collections reachable during a call to
`merge`: references are indices, `setattr` writes through a reference.
This makes aliasing explicit, so that the deep copies taken by `merge`
are distinguishable from writes to the caller's objects. -/
def Store := List IoCollection

/-- Dereference (out-of-range only occurs outside the modelled runs). -/
def storeGet (σ : Store) (i : ℕ) : IoCollection :=
  List.getD σ i ⟨"", []⟩

/-- Write through a reference. -/
def storeSet (σ : Store) (i : ℕ) (c : IoCollection) : Store :=
  List.set σ i c

/-- Python `key.endswith(suffix)` (over the character list, which the
kernel can evaluate). -/
def endsWithStr (s suffix : String) : Bool :=
  suffix.data.isSuffixOf s.data

/-- Python `key.removesuffix(suffix)`. -/
def removesuffix (s suffix : String) : String :=
  if endsWithStr s suffix then
    String.mk (s.data.take (s.data.length - suffix.data.length))
  else s

/-- The first pre-processing pass of `merge` over the matching keys:
checks compatibility of the two entity-likes stored under each key and
homogenizes them (converting the non-preferred side to the preferred
unit, promoting quantities paired with entities, failing with
`ValueError` on label or unit conflicts); pairs involving raw values or
the `_description` string fall through the `match` untouched. -/
def harmonizePass (pi oi : ℕ) (σ : Store) :
    List String → Except MErr Store
  | [] => .ok σ
  | k :: rest =>
    match ioGetattr (storeGet σ pi) k, ioGetattr (storeGet σ oi) k with
    | none, _ => .error (.attributeError k)
    | _, none => .error (.attributeError k)
    | some (.like (.entity pe)), some (.like (.entity oe)) =>
        if pe.ontology_label ≠ oe.ontology_label then
          .error (.valueError "incompatible ontology labels")
        else if ¬ isEquivalent oe.quantity.unit pe.quantity.unit then
          .error (.unitConversionError "cannot convert to the preferred unit")
        else
          match entityInit pe.ontology_label
              (.quantity (oe.quantity.convertTo pe.quantity.unit)) none "" with
          | .error err => .error err
          | .ok newE =>
              harmonizePass pi oi
                (storeSet σ oi (ioSetattr (storeGet σ oi) k (.entity newE)))
                rest
    | some (.like (.entity pe)), some (.like (.quantity oq)) =>
        if ¬ isEquivalent pe.quantity.unit oq.unit then
          .error (.valueError "incompatible units")
        else
          match entityInit pe.ontology_label
              (.quantity (oq.convertTo pe.quantity.unit)) none "" with
          | .error err => .error err
          | .ok newE =>
              harmonizePass pi oi
                (storeSet σ oi (ioSetattr (storeGet σ oi) k (.entity newE)))
                rest
    | some (.like (.quantity pq)), some (.like (.entity oe)) =>
        if ¬ isEquivalent pq.unit oe.quantity.unit then
          .error (.valueError "incompatible units")
        else
          match entityInit oe.ontology_label (.quantity pq) none "" with
          | .error err => .error err
          | .ok newP =>
            match entityInit oe.ontology_label
                (.quantity (oe.quantity.convertTo pq.unit)) none "" with
            | .error err => .error err
            | .ok newO =>
                harmonizePass pi oi
                  (storeSet
                    (storeSet σ pi
                      (ioSetattr (storeGet σ pi) k (.entity newP)))
                    oi
                    (ioSetattr (storeGet σ oi) k (.entity newO)))
                  rest
    | some (.like (.quantity pq)), some (.like (.quantity oq)) =>
        if ¬ isEquivalent pq.unit oq.unit then
          .error (.valueError "incompatible units")
        else
          harmonizePass pi oi
            (storeSet σ oi
              (ioSetattr (storeGet σ oi) k (.quantity (oq.convertTo pq.unit))))
            rest
    | some _, some _ => harmonizePass pi oi σ rest

/-- The join-key harmonization pass of `merge`, run when both `left_on`
and `right_on` are passed: for each corresponding key pair, convertible
sides are aligned to the preferred key's unit; pairs that do not fit a
`case` (including entities with differing labels) are silently skipped;
`zip(..., strict=True)` raises `ValueError` on length mismatch. -/
def harmonizeOnPass (pi oi : ℕ) (σ : Store) :
    List String → List String → Except MErr Store
  | [], [] => .ok σ
  | [], _ :: _ => .error (.valueError "zip arguments of unequal length")
  | _ :: _, [] => .error (.valueError "zip arguments of unequal length")
  | pk :: prest, ok' :: orest =>
    match ioGetattr (storeGet σ pi) pk, ioGetattr (storeGet σ oi) ok' with
    | none, _ => .error (.attributeError pk)
    | _, none => .error (.attributeError ok')
    | some (.like (.entity pe)), some (.like (.entity oe)) =>
        if pe.ontology_label = oe.ontology_label then
          if ¬ isEquivalent oe.quantity.unit pe.quantity.unit then
            .error (.unitConversionError "cannot convert to the preferred unit")
          else
            match entityInit oe.ontology_label
                (.quantity (oe.quantity.convertTo pe.quantity.unit)) none "" with
            | .error err => .error err
            | .ok newE =>
                harmonizeOnPass pi oi
                  (storeSet σ oi
                    (ioSetattr (storeGet σ oi) ok' (.entity newE)))
                  prest orest
        else harmonizeOnPass pi oi σ prest orest
    | some (.like (.entity pe)), some (.like (.quantity oq)) =>
        if isEquivalent pe.quantity.unit oq.unit then
          harmonizeOnPass pi oi
            (storeSet σ oi
              (ioSetattr (storeGet σ oi) ok'
                (.quantity (oq.convertTo pe.quantity.unit))))
            prest orest
        else harmonizeOnPass pi oi σ prest orest
    | some (.like (.quantity pq)), some (.like (.entity oe)) =>
        if isEquivalent pq.unit oe.quantity.unit then
          match entityInit oe.ontology_label
              (.quantity (oe.quantity.convertTo pq.unit)) none "" with
          | .error err => .error err
          | .ok newE =>
              harmonizeOnPass pi oi
                (storeSet σ oi
                  (ioSetattr (storeGet σ oi) ok' (.entity newE)))
                prest orest
        else harmonizeOnPass pi oi σ prest orest
    | some _, some _ => harmonizeOnPass pi oi σ prest orest

/-- The (ontology label, unit) metadata read off an attribute during the
rebuild loop of `merge`. -/
def labelUnitOf : IoAttr → Option String × Option MUnit
  | .like (.entity e) => (some e.ontology_label, some e.quantity.unit)
  | .like (.quantity q) => (none, some q.unit)
  | _ => (none, none)

/-- Numeric contents of a column (`val.to_numpy()` consumed by `Entity` or
`Quantity`); a string cell cannot carry a unit. -/
def cellsToNums : List Cell → Except MErr (List ℚ)
  | [] => .ok []
  | .num q :: rest =>
    match cellsToNums rest with
    | .error err => .error err
    | .ok qs => .ok (q :: qs)
  | .str _ :: _ => .error (.valueError "could not convert string to float")

/-- Closing step of one iteration of the rebuild loop of `merge`: decide
label and unit from the matching-key pair or the owning collection, then
store an `Entity`, a `Quantity`, or the plain array under the output
name.  `lab`/`un` arrive from the suffix-stripping stage; a label that is
`None` or empty is falsy in `if ontology_label:`. -/
def rebuildFinish (pref other : IoCollection) (mk : List String)
    (key : String) (keyWithSuffix : Option String) (lab : Option String)
    (un : Option MUnit) (val : List Cell) (result : IoCollection) :
    Except MErr IoCollection :=
  let metaE : Except MErr (Option String × Option MUnit) :=
    if mk.contains key then
      match ioGetattr pref key, ioGetattr other key with
      | none, _ => .error (.attributeError key)
      | _, none => .error (.attributeError key)
      | some pobj, some oobj =>
        match pobj, oobj with
        | .like (.entity pe), _ =>
            .ok (some pe.ontology_label, some pe.quantity.unit)
        | _, .like (.entity oe) =>
            .ok (some oe.ontology_label, some oe.quantity.unit)
        | .like (.quantity pq), _ => .ok (lab, some pq.unit)
        | _, .like (.quantity oq) => .ok (lab, some oq.unit)
        | _, _ => .ok (lab, un)
    else
      match (if ioHasattr pref key then ioGetattr pref key
             else ioGetattr other key) with
      | none => .error (.attributeError key)
      | some obj =>
        match obj with
        | .like (.entity e) =>
            if lab = none then
              .ok (some e.ontology_label, some e.quantity.unit)
            else .ok (lab, un)
        | .like (.quantity q) =>
            if un = none then .ok (lab, some q.unit) else .ok (lab, un)
        | _ => .ok (lab, un)
  match metaE with
  | .error err => .error err
  | .ok (lab', un') =>
    let outKey := keyWithSuffix.getD key
    let labTruthy : Bool := match lab' with
      | some l => l != ""
      | none => false
    if labTruthy then
      match lab', cellsToNums val with
      | _, .error err => .error err
      | none, _ => .error (.valueError "unreachable: label is truthy")
      | some l, .ok nums =>
        match entityInit l (.arr ⟨[nums.length], nums⟩) un' "" with
        | .error err => .error err
        | .ok e => .ok (ioSetattr result outKey (.entity e))
    else
      match un' with
      | some u =>
        match cellsToNums val with
        | .error err => .error err
        | .ok nums =>
            .ok (ioSetattr result outKey (.quantity ⟨⟨[nums.length], nums⟩, u⟩))
      | none => .ok (ioSetattr result outKey (.raw ⟨[val.length], val⟩))

/-- One iteration of the rebuild loop of `merge` for a merged-dataframe
column: a name unknown to both collections is suffix-stripped against the
deep-copied `left`/`right` to recover its origin (an unknown name with no
suffix, such as the `indicator` column, is stored as a plain array). -/
def rebuildCol (pref other leftC rightC : IoCollection) (mk : List String)
    (sfx : String × String) (key : String) (val : List Cell)
    (result : IoCollection) : Except MErr IoCollection :=
  if ¬ (ioHasattr pref key || ioHasattr other key) then
    if endsWithStr key sfx.1 then
      let k' := removesuffix key sfx.1
      match ioGetattr leftC k' with
      | none => .error (.attributeError k')
      | some obj =>
          rebuildFinish pref other mk k' (some key) (labelUnitOf obj).1
            (labelUnitOf obj).2 val result
    else if endsWithStr key sfx.2 then
      let k' := removesuffix key sfx.2
      match ioGetattr rightC k' with
      | none => .error (.attributeError k')
      | some obj =>
          rebuildFinish pref other mk k' (some key) (labelUnitOf obj).1
            (labelUnitOf obj).2 val result
    else .ok (ioSetattr result key (.raw ⟨[val.length], val⟩))
  else rebuildFinish pref other mk key none none none val result

/-- The full rebuild loop over the merged dataframe's columns. -/
def rebuildCols (pref other leftC rightC : IoCollection)
    (mk : List String) (sfx : String × String) :
    List (String × List Cell) → IoCollection → Except MErr IoCollection
  | [], result => .ok result
  | (k, v) :: rest, result =>
    match rebuildCol pref other leftC rightC mk sfx k v result with
    | .error err => .error err
    | .ok result' => rebuildCols pref other leftC rightC mk sfx rest result'

/-- `operations.merge(left, right, **kwargs)` over the object store:
deep-copies both inputs into fresh references, determines the preferred
side from `how`, harmonizes overlapping attributes and the
`left_on`/`right_on` key pairs on the copies, joins the plain dataframes
with the external engine, and rebuilds a fresh collection from the merged
columns.  Returns the outcome together with the final store, in which the
caller's collections still live at their original references. -/
def merge (σ : Store) (li ri : ℕ) (kw : MergeKwargs) :
    Except MErr IoCollection × Store :=
  let lc := List.length σ
  let rc := List.length σ + 1
  let σ₁ : Store :=
    List.append σ [deepcopy (storeGet σ li), deepcopy (storeGet σ ri)]
  let prefRight : Bool := match kw.how with
    | some h => h.toLower == "right"
    | none => false
  let pi := if prefRight then rc else lc
  let oi := if prefRight then lc else rc
  let mk := matchingKeysOf (storeGet σ₁ pi) (storeGet σ₁ oi) kw
  match harmonizePass pi oi σ₁ mk with
  | .error err => (.error err, σ₁)
  | .ok σ₂ =>
    match
      (match kw.left_on, kw.right_on with
       | some lks, some rks =>
           if prefRight then harmonizeOnPass pi oi σ₂ rks lks
           else harmonizeOnPass pi oi σ₂ lks rks
       | _, _ => .ok σ₂) with
    | .error err => (.error err, σ₂)
    | .ok σ₃ =>
      match ioToDataframe (storeGet σ₃ lc), ioToDataframe (storeGet σ₃ rc) with
      | .error err, _ => (.error err, σ₃)
      | .ok _, .error err => (.error err, σ₃)
      | .ok ldf, .ok rdf =>
        match pdMerge ldf rdf kw with
        | .error err => (.error err, σ₃)
        | .ok mdf =>
            (rebuildCols (storeGet σ₃ pi) (storeGet σ₃ oi) (storeGet σ₃ lc)
              (storeGet σ₃ rc) mk (kw.suffixes.getD ("_x", "_y")) mdf
              ⟨"", []⟩, σ₃)

/-- Wellformedness of an entity-like stored in a collection. -/
def wfLike : EntityLike → Bool
  | .entity e => wfEntity e
  | _ => true

/-- The preferred collection of a `merge` call (the right one exactly when
`how="right"` is passed, else the left one). -/
def mergePref (σ : Store) (li ri : ℕ) (kw : MergeKwargs) : IoCollection :=
  if (match kw.how with
      | some h => h.toLower == "right"
      | none => false) then storeGet σ ri else storeGet σ li

/-- The non-preferred collection of a `merge` call. -/
def mergeOther (σ : Store) (li ri : ℕ) (kw : MergeKwargs) : IoCollection :=
  if (match kw.how with
      | some h => h.toLower == "right"
      | none => false) then storeGet σ li else storeGet σ ri

/-- Left collection of the C8 example runs: a raw join key `k` and an
entity field `f` labelled SpontaneousMagnetization. -/
def mergeCexL : IoCollection :=
  ⟨"", [("k", .raw ⟨[1], [.num 1]⟩),
        ("f", .entity ⟨"SpontaneousMagnetization", ⟨⟨[1], [1]⟩, AmPerM⟩, ""⟩)]⟩

/-- Right collection of the C8 example runs: the same names, with `f`
labelled Magnetization (a different concept of the same dimension). -/
def mergeCexR : IoCollection :=
  ⟨"", [("k", .raw ⟨[1], [.num 1]⟩),
        ("f", .entity ⟨"Magnetization", ⟨⟨[1], [1]⟩, AmPerM⟩, ""⟩)]⟩

/-! ### The dict-backed `EntityCollection` of `_entity_collection.py` -/
/-- A value storable in the dict-backed collection: a Python string or an
entity-like. -/
inductive AttrVal where
  | pyStr (s : String)
  | like (v : EntityLike)
deriving DecidableEq, Repr

/-- Python `s.startswith(pre)` (over the character list). -/
def startsWithStr (s pre : String) : Bool :=
  pre.data.isPrefixOf s.data

/-- Association-list lookup (Python dict access). -/
def assocGet {α : Type} (l : List (String × α)) (n : String) : Option α :=
  (l.find? (fun p => p.1 == n)).map Prod.snd

/-- Association-list removal (Python `del d[k]` / `d.pop(k)`). -/
def assocRemove {α : Type} : List (String × α) → String →
    List (String × α)
  | [], _ => []
  | a :: rest, n => if a.1 = n then rest else a :: assocRemove rest n

/-- `mammos_entity.EntityCollection` (`_entity_collection.py`): the
validated `_description` string, the instance attributes created by
`object.__setattr__` (underscore names and names shadowing class
members), and the `_entities` dictionary holding the data entries. -/
structure ECollection where
  description : String
  instAttrs : List (String × AttrVal)
  entities : List (String × AttrVal)
deriving DecidableEq, Repr

/-- The non-underscore members of the `EntityCollection` class itself:
the `description` property and the public methods.  `hasattr(cls, name)`
is true exactly for these (and for dunder names, which start with an
underscore and take the same `object.__setattr__` route). -/
def ecClassAttrs : List String :=
  ["description", "to_file", "to_dataframe", "metadata", "from_dataframe",
   "to_hdf5_group"]

/-- The result of `getattr` on the collection: a stored value, a bound
method of the class, or the `_entities` dictionary itself. -/
inductive ECAttr where
  | val (v : AttrVal)
  | method (name : String)
  | entitiesDict (d : List (String × AttrVal))
deriving DecidableEq, Repr

/-- `collection[name]` (`__getitem__`): the entities dictionary only. -/
def ecGetitem (c : ECollection) (name : String) : Except MErr AttrVal :=
  match assocGet c.entities name with
  | some v => .ok v
  | none => .error (.keyError name)

/-- `collection[name] = value` (`__setitem__`): rejects the reserved name
`description`, otherwise updates the entities dictionary. -/
def ecSetitem (c : ECollection) (name : String) (v : AttrVal) :
    Except MErr ECollection :=
  if name = "description" then
    .error (.keyError "description is not allowed as entity name.")
  else .ok { c with entities := assocSet c.entities name v }

/-- `del collection[name]` (`__delitem__`). -/
def ecDelitem (c : ECollection) (name : String) : Except MErr ECollection :=
  match assocGet c.entities name with
  | some _ => .ok { c with entities := assocRemove c.entities name }
  | none => .error (.keyError name)

/-- Python attribute lookup on the collection, in resolution order: the
`description` data descriptor, the instance dictionary (`_description`,
`_entities`, and anything placed there by `object.__setattr__`), the
non-data class attributes (the methods), and finally the `__getattr__`
fallback into the entities dictionary (`AttributeError` when absent). -/
def ecGetattr (c : ECollection) (name : String) : Except MErr ECAttr :=
  if name = "description" then .ok (.val (.pyStr c.description))
  else if name = "_description" then .ok (.val (.pyStr c.description))
  else if name = "_entities" then .ok (.entitiesDict c.entities)
  else
    match assocGet c.instAttrs name with
    | some v => .ok (.val v)
    | none =>
      if name ∈ ecClassAttrs then .ok (.method name)
      else
        match assocGet c.entities name with
        | some v => .ok (.val v)
        | none => .error (.attributeError name)

/-- `collection.name = value` (`__setattr__`): underscore names and names
of class members go through `object.__setattr__` (the `description`
property setter validates a string; writing a non-string through the
private slots is outside the modelled fragment); every other name is
stored in the entities dictionary via `__setitem__`. -/
def ecSetattr (c : ECollection) (name : String) (v : AttrVal) :
    Except MErr ECollection :=
  if startsWithStr name "_" || name ∈ ecClassAttrs then
    if name = "description" then
      match v with
      | .pyStr s => .ok { c with description := s }
      | .like _ => .error (.valueError "Description must be a string.")
    else if name = "_description" || name = "_entities" then
      .error (.valueError "direct writes to the private slots are outside the modelled fragment")
    else .ok { c with instAttrs := assocSet c.instAttrs name v }
  else ecSetitem c name v

/-- `del collection.name` (`__delattr__`): underscore names and class
members go through `object.__delattr__` (which deletes an instance
attribute if one exists and otherwise raises `AttributeError` — in
particular the `description` property has no deleter); other names are
removed from the entities dictionary when present. -/
def ecDelattr (c : ECollection) (name : String) : Except MErr ECollection :=
  if startsWithStr name "_" || name ∈ ecClassAttrs then
    if name = "_description" || name = "_entities" then
      .error (.valueError "direct deletion of the private slots is outside the modelled fragment")
    else
      match assocGet c.instAttrs name with
      | some _ => .ok { c with instAttrs := assocRemove c.instAttrs name }
      | none => .error (.attributeError name)
  else
    match assocGet c.entities name with
    | some _ => .ok { c with entities := assocRemove c.entities name }
    | none => .error (.attributeError name)

/-- A value of the metadata mapping passed to `from_dataframe`: the
collection description (a plain string) or a per-field dictionary with
optional `ontology_label`, `unit` and `description` keys (a key that is
present but bound to `None` where a string is expected lies outside the
modelled fragment). -/
inductive MetaVal where
  | descStr (s : String)
  | fieldMeta (label : Option String) (unit : Option MUnit)
      (descr : Option String)
deriving DecidableEq, Repr

/-- The metadata mapping (a Python dict in insertion order). -/
def ECMetadata := List (String × MetaVal)

/-- The per-field loop of `from_dataframe`, in metadata order: a
single-row column collapses to a scalar; a field with an
`ontology_label` key becomes an `Entity` (unit and description optional),
one with only a `unit` key a `Quantity`, anything else keeps the raw
column (a plain-string metadata value contains neither key). -/
def buildEntities (df : DataFrame) :
    List (String × MetaVal) → Except MErr (List (String × AttrVal))
  | [] => .ok []
  | (name, mval) :: rest =>
    match assocGet df name with
    | none => .error (.keyError name)
    | some cells =>
      let value : RawArr :=
        if cells.length = 1 then ⟨[], cells⟩ else ⟨[cells.length], cells⟩
      let elem : Except MErr AttrVal :=
        match mval with
        | .fieldMeta (some l) unit descr =>
          match cellsToNums value.data with
          | .error err => .error err
          | .ok nums =>
            match entityInit l (.arr ⟨value.shape, nums⟩) unit
                (descr.getD "") with
            | .error err => .error err
            | .ok e => .ok (.like (.entity e))
        | .fieldMeta none (some u) _ =>
          match cellsToNums value.data with
          | .error err => .error err
          | .ok nums => .ok (.like (.quantity ⟨⟨value.shape, nums⟩, u⟩))
        | .fieldMeta none none _ => .ok (.like (.raw value))
        | .descStr _ => .ok (.like (.raw value))
      match elem with
      | .error err => .error err
      | .ok el =>
        match buildEntities df rest with
        | .error err => .error err
        | .ok es => .ok ((name, el) :: es)

/-- `EntityCollection.from_dataframe(dataframe, metadata)` over a store
of metadata dictionaries (references are indices, as for `merge`): the
method deep-copies the caller's mapping into a fresh reference, pops the
optional `description` key on the copy, cross-checks the column and key
sets (`ValueError` on a mismatch), builds the entries in metadata order
and validates the description string in the constructor.  The final
store, in which the caller's mapping is untouched, is returned alongside
the outcome. -/
def from_dataframe (df : DataFrame) (σ : List ECMetadata) (mi : ℕ) :
    Except MErr ECollection × List ECMetadata :=
  let ci := List.length σ
  let σ₁ := List.append σ [List.getD σ mi []]
  let dval := assocGet (List.getD σ₁ ci []) "description"
  let σ₂ := List.set σ₁ ci (assocRemove (List.getD σ₁ ci []) "description")
  let md := List.getD σ₂ ci []
  let res : Except MErr ECollection :=
    if (dfNames df).filter
        (fun n => ¬ (md.map Prod.fst).contains n) ≠ [] then
      .error (.valueError "Entity_Metadata is missing for columns")
    else if (md.map Prod.fst).filter
        (fun n => ¬ (dfNames df).contains n) ≠ [] then
      .error (.valueError "Entity_Metadata is missing for columns")
    else
      match buildEntities df md with
      | .error err => .error err
      | .ok es =>
        match dval with
        | some (.fieldMeta _ _ _) =>
            .error (.valueError "Description must be a string.")
        | some (.descStr s) => .ok ⟨s, [], es⟩
        | none => .ok ⟨"", [], es⟩
  (res, σ₂)

/-! ### The versioned file codecs of `io.py` -/
/-- Split a list of characters at newlines (Python `str.split("\n")`). -/
def splitChars : List Char → List (List Char)
  | [] => [[]]
  | c :: rest =>
    let r := splitChars rest
    if c = '\n' then [] :: r
    else
      match r with
      | h :: t => (c :: h) :: t
      | [] => [[c]]

/-- Python `s.split("\n")`. -/
def splitLines (s : String) : List String :=
  (splitChars s.data).map String.mk

/-- Join character lines with newlines (Python `"\n".join`). -/
def joinChars : List (List Char) → List Char
  | [] => []
  | [l] => l
  | l :: rest => l ++ '\n' :: joinChars rest

/-- Python `"\n".join(lines)`. -/
def joinLines (ls : List String) : String :=
  String.mk (joinChars (ls.map String.data))

/-- Python `s.strip()`: drop leading and trailing whitespace. -/
def pyStrip (s : String) : String :=
  String.mk
    (((s.data.dropWhile Char.isWhitespace).reverse.dropWhile
      Char.isWhitespace).reverse)

/-- Python `s.removeprefix(pre)`. -/
def dropPre (s pre : String) : String :=
  if startsWithStr s pre then String.mk (s.data.drop pre.data.length) else s

/-- Is `sub` an infix of the character list? -/
def hasInfix (sub : List Char) : List Char → Bool
  | [] => sub.isEmpty
  | c :: rest => sub.isPrefixOf (c :: rest) || hasInfix sub rest

/-- Python `sub in s` (substring containment). -/
def containsSub (s sub : String) : Bool :=
  hasInfix sub.data s.data

/-- Decimal digits to a number. -/
def digitsToNat (ds : List Char) : ℕ :=
  ds.foldl (fun n c => 10 * n + (c.toNat - '0'.toNat)) 0

/-- `re.search(r"v\d+", line)`: the first `v` followed by at least one
digit, as a number. -/
def findVersion : List Char → Option ℕ
  | [] => none
  | c :: rest =>
    if c = 'v' then
      match rest.takeWhile Char.isDigit with
      | [] => findVersion rest
      | ds => some (digitsToNat ds)
    else findVersion rest

/-- The column data of a CSV table, tagged with the type pandas infers
for the column: `nums` when every written cell parses as a number, `strs`
otherwise.  (A handwritten file whose string cells all look numeric is
read by pandas as numbers and is represented here by a `nums` column.) -/
inductive ColData where
  | nums (qs : List ℚ)
  | strs (ss : List String)
deriving DecidableEq, Repr

/-- Number of rows a column contributes. -/
def colLen : ColData → ℕ
  | .nums qs => qs.length
  | .strs ss => ss.length

/-- The cells of a column. -/
def colCells : ColData → List Cell
  | .nums qs => qs.map Cell.num
  | .strs ss => ss.map Cell.str

/-- A mammos CSV file, structured by the lines and rows the code writes
and reads: the version line, the optional description block (the raw
lines between the two dash lines), the four v3 metadata rows and the
named data columns.  A unit cell is the unit string of a column, `none`
standing for the empty cell (which is also what the dimensionless unit
prints as).  The CSV quoting of the external `csv`/pandas layer is
lossless and not re-modelled. -/
structure CsvFile where
  firstLine : String
  descBlock : Option (List String)
  labelsRow : List String
  descsRow : List String
  irisRow : List String
  unitsRow : List (Option MUnit)
  header : List String
  cols : List ColData
deriving DecidableEq, Repr

/-- The value of an element as collected by the CSV writer before shape
processing: the numeric array of an entity or quantity, or a raw
array-like. -/
inductive CsvVal where
  | numArr (a : NumArr)
  | rawArr (r : RawArr)
deriving DecidableEq, Repr

/-- `pd.api.types.is_scalar(element.value)`. -/
def isScalarVal : CsvVal → Bool
  | .numArr a => a.shape == []
  | .rawArr r => r.shape == []

/-- One element's contribution to the CSV metadata rows. -/
structure CsvRec where
  label : String
  cdesc : String
  iri : String
  unitCell : Option MUnit
  value : CsvVal
deriving DecidableEq, Repr

/-- `str(unit)` as a CSV cell: the unscaled dimensionless unit prints as
the empty string, i.e. the empty cell. -/
def unitCellOf (u : MUnit) : Option MUnit :=
  if u = dimensionlessU then none else some u

/-- The collection loop of `_entities_to_csv`: labels, descriptions,
IRIs, units and values per element (resolving an entity's IRI fails for
an unknown label). -/
def csvRecOf : EntityLike → Except MErr CsvRec
  | .entity e =>
    match getByLabel e.ontology_label with
    | none => .error (.lookupError "No label found in the ontology.")
    | some c =>
        .ok ⟨e.ontology_label, e.description, c.iri,
          unitCellOf e.quantity.unit, .numArr e.quantity.arr⟩
  | .quantity q => .ok ⟨"", "", "", unitCellOf q.unit, .numArr q.arr⟩
  | .raw r => .ok ⟨"", "", "", none, .rawArr r⟩

def csvRecsOf : List (String × EntityLike) → Except MErr (List CsvRec)
  | [] => .ok []
  | (_, v) :: rest =>
    match csvRecOf v with
    | .error err => .error err
    | .ok r =>
      match csvRecsOf rest with
      | .error err => .error err
      | .ok rs => .ok (r :: rs)

/-- Predicate for a string that can only be a number to pandas: used in
the negative (a cell failing this is certainly kept as a string). -/
def isNumeralStr (s : String) : Bool :=
  s.data ≠ [] &&
    s.data.all (fun c => c.isDigit || c = '.' || c = '-' || c = '+' || c = 'e')

/-- The pandas `DataFrame` conversion of one value: scalars become
one-row columns, one-dimensional arrays become columns, anything else is
rejected (`Data must be 1-dimensional`); raw cells are tagged with the
column type pandas infers. -/
def colDataOf : CsvVal → Except MErr ColData
  | .numArr a =>
    if a.shape = [] ∨ a.shape = [a.data.length] then .ok (.nums a.data)
    else .error (.valueError "Data must be 1-dimensional")
  | .rawArr r =>
    if r.shape = [] ∨ r.shape = [r.data.length] then
      if r.data.all (fun c => match c with | .num _ => true | .str _ => false)
      then
        .ok (.nums (r.data.filterMap
          (fun c => match c with | .num q => some q | .str _ => none)))
      else
        .ok (.strs (r.data.map
          (fun c => match c with
                    | .num q => toString q
                    | .str s => s)))
    else .error (.valueError "Data must be 1-dimensional")

def colsOfRecs : List CsvRec → Except MErr (List ColData)
  | [] => .ok []
  | r :: rs =>
    match colDataOf r.value with
    | .error err => .error err
    | .ok c =>
      match colsOfRecs rs with
      | .error err => .error err
      | .ok cs => .ok (c :: cs)

/-- `_entities_to_csv`: collect the per-element metadata rows, reject a
mix of scalar and non-scalar values, build the dataframe (each column
one-dimensional, all of one length) and emit the v3 layout; a non-empty
description is written as a dash-delimited block of `"# "`-prefixed
lines. -/
def entitiesToCsv (description : String)
    (entities : List (String × EntityLike)) : Except MErr CsvFile :=
  match csvRecsOf entities with
  | .error err => .error err
  | .ok recs =>
    if (recs.any fun r => isScalarVal r.value) ∧
        ¬ (recs.all fun r => isScalarVal r.value) then
      .error (.valueError "All entities must have the same shape, either 0 or 1.")
    else
      match colsOfRecs recs with
      | .error err => .error err
      | .ok cols =>
        if cols.all (fun c => colLen c = colLen (cols.headD (.nums []))) then
          .ok ⟨"#mammos csv v3",
            if description = "" then none
            else some ((splitLines description).map (fun l => "# " ++ l)),
            recs.map (·.label), recs.map (·.cdesc), recs.map (·.iri),
            recs.map (·.unitCell), entities.map (·.1), cols⟩
        else .error (.valueError "All arrays must be of the same length")

/-- The per-column loop of `_entities_from_csv` (`zip` of names, labels,
descriptions, IRIs and units with `strict=True`, looking up each data
column): a non-empty label builds an `Entity` (the unit cell string, empty
for an empty cell, is passed as the unit) and checks its IRI; otherwise a
non-empty unit cell builds a `Quantity`; otherwise the raw column values
are stored.  With `scalar` set, `data[name].values[0]` unwraps the single
row to a scalar. -/
def readCols (scalar : Bool) :
    List String → List String → List String → List String →
    List (Option MUnit) → List ColData →
    Except MErr (List (String × EntityLike))
  | [], [], [], [], [], [] => .ok []
  | n :: ns, lb :: lbs, dc :: dcs, ir :: irs, uc :: ucs, cd :: cds =>
    let shape : List ℕ := if scalar then [] else [colLen cd]
    let next := fun (v : EntityLike) =>
      match readCols scalar ns lbs dcs irs ucs cds with
      | .error err => .error err
      | .ok rest => .ok ((n, v) :: rest)
    if lb ≠ "" then
      match cd with
      | .strs _ => .error (.valueError "could not convert string to float")
      | .nums qs =>
        match entityInit lb (.arr ⟨shape, qs⟩) (some (uc.getD dimensionlessU)) dc with
        | .error err => .error err
        | .ok e =>
          match getByLabel e.ontology_label with
          | none => .error (.lookupError "No label found in the ontology.")
          | some c =>
            if c.iri ≠ ir then .error (.runtimeError "Incompatible IRI")
            else next (.entity e)
    else
      match uc with
      | some uu =>
        match cd with
        | .strs _ => .error (.valueError "could not convert string to float")
        | .nums qs => next (.quantity ⟨⟨shape, qs⟩, uu⟩)
      | none => next (.raw ⟨shape, colCells cd⟩)
  | _, _, _, _, _, _ => .error (.valueError "zip() arguments have different lengths")

/-- The `setattr` loop building the result collection. -/
def buildIoColl (desc : String) (elems : List (String × EntityLike)) :
    IoCollection :=
  elems.foldl (fun c p => ioSetattr c p.1 p.2) ⟨desc, []⟩

/-- `_entities_from_csv`: the first line must contain a version string
(`re.search(r"v\d+")`, else `RuntimeError`) naming a supported version
(1 to 3); the optional description block is consumed up to its closing
dash line, each line stripped of whitespace and its `"# "` marker; then
the v3 metadata rows and data columns are read column by column (a single
data row makes every value scalar).  The distinct commented metadata
layout of v1/v2 files is not representable in the v3-shaped `CsvFile`
record, so reading those versions is left outside the modelled
fragment. -/
def entitiesFromCsv (f : CsvFile) : Except MErr IoCollection :=
  match findVersion f.firstLine.data with
  | none => .error (.runtimeError "File does not have version information in line 1.")
  | some v =>
    if v = 0 ∨ 4 ≤ v then
      .error (.runtimeError "Reading this mammos csv version is not supported.")
    else if v ≤ 2 then
      .error (.runtimeError "v1/v2 metadata layout outside the modelled fragment")
    else
      let descLines :=
        match f.descBlock with
        | some lines =>
          (lines.takeWhile (fun l => ¬ containsSub l "#--")).map
            (fun l => dropPre (pyStrip l) "# ")
        | none => []
      let scalar := match f.cols with
        | c :: _ => colLen c == 1
        | [] => false
      match readCols scalar f.header f.labelsRow f.descsRow f.irisRow
          f.unitsRow f.cols with
      | .error err => .error err
      | .ok elems => .ok (buildIoColl (joinLines descLines) elems)

/-- One object of a mammos YAML file: the five v2 sub-keys.  `label` and
`iri` are `none` for YAML `null`; a `none` description stands for the key
being absent (the v1 layout); a `none` unit is `null`, while
`some dimensionlessU` is the empty string. -/
structure YamlItem where
  label : Option String
  descr : Option String
  iri : Option String
  unit : Option MUnit
  value : CsvVal
deriving DecidableEq, Repr

/-- A mammos YAML file: the `metadata` mapping (version and description)
and the `data` mapping in key order.  Files missing one of the two
top-level keys or one of the required sub-keys other than `description`
are not representable and outside the modelled fragment. -/
structure YamlFile where
  version : String
  description : String
  data : List (String × YamlItem)
deriving DecidableEq, Repr

/-- The `_preprocess_entity_args` generator of `_entities_to_yaml`: label,
description, IRI, unit and `tolist()` value per element (`null` label,
IRI and unit for non-entities, `null` unit for raw values). -/
def yamlItemOf : EntityLike → Except MErr YamlItem
  | .entity e =>
    match getByLabel e.ontology_label with
    | none => .error (.lookupError "No label found in the ontology.")
    | some c =>
        .ok ⟨some e.ontology_label, some e.description, some c.iri,
          some e.quantity.unit, .numArr e.quantity.arr⟩
  | .quantity q => .ok ⟨none, some "", none, some q.unit, .numArr q.arr⟩
  | .raw r => .ok ⟨none, some "", none, none, .rawArr r⟩

def yamlItemsOf : List (String × EntityLike) → Except MErr (List (String × YamlItem))
  | [] => .ok []
  | (n, v) :: rest =>
    match yamlItemOf v with
    | .error err => .error err
    | .ok it =>
      match yamlItemsOf rest with
      | .error err => .error err
      | .ok its => .ok ((n, it) :: its)

/-- `_entities_to_yaml`: version `v2`, the given description, and one
object per element. -/
def entitiesToYaml (description : String)
    (entities : List (String × EntityLike)) : Except MErr YamlFile :=
  match yamlItemsOf entities with
  | .error err => .error err
  | .ok items => .ok ⟨"v2", description, items⟩

/-- A YAML value as consumed by `Entity` or `Quantity`
(`np.array` of the nested lists): numbers only. -/
def yamlValNums : CsvVal → Except MErr NumArr
  | .numArr a => .ok a
  | .rawArr r =>
    match cellsToNums r.data with
    | .error err => .error err
    | .ok qs => .ok ⟨r.shape, qs⟩

/-- A YAML value stored raw (`item["value"]`, the plain nested lists). -/
def yamlValRaw : CsvVal → RawArr
  | .numArr a => ⟨a.shape, a.data.map Cell.num⟩
  | .rawArr r => r

/-- The per-object loop of `_entities_from_yaml`: the sub-key set must
match the version (v1 objects have no `description` key, v2 objects do);
a non-null label builds an `Entity` (passing the unit through, `null`
meaning no unit argument) and checks its IRI; otherwise a non-null unit
builds a `Quantity`; otherwise the value is stored as read. -/
def readYamlItems (vnum : ℕ) :
    List (String × YamlItem) → Except MErr (List (String × EntityLike))
  | [] => .ok []
  | (n, it) :: rest =>
    if (if 2 ≤ vnum then it.descr.isNone else it.descr.isSome) then
      .error (.runtimeError "Element does not have the required keys.")
    else
      let next := fun (v : EntityLike) =>
        match readYamlItems vnum rest with
        | .error err => .error err
        | .ok xs => .ok ((n, v) :: xs)
      match it.label with
      | some lb =>
        match yamlValNums it.value with
        | .error err => .error err
        | .ok a =>
          match entityInit lb (.arr a) it.unit (it.descr.getD "") with
          | .error err => .error err
          | .ok e =>
            match getByLabel e.ontology_label with
            | none => .error (.lookupError "No label found in the ontology.")
            | some c =>
              if it.iri ≠ some c.iri then
                .error (.runtimeError "Incompatible IRI")
              else next (.entity e)
      | none =>
        match it.unit with
        | some uu =>
          match yamlValNums it.value with
          | .error err => .error err
          | .ok a => next (.quantity ⟨a, uu⟩)
        | none => next (.raw (yamlValRaw it.value))

/-- `_entities_from_yaml`: the version must be `v1` or `v2` (else
`RuntimeError`), `data` must be non-empty (else `RuntimeError`), then the
objects are read in order. -/
def entitiesFromYaml (f : YamlFile) : Except MErr IoCollection :=
  if f.version ≠ "v1" ∧ f.version ≠ "v2" then
    .error (.runtimeError "Reading this mammos yaml version is not supported.")
  else if f.data = [] then
    .error (.runtimeError "data does not contain anything.")
  else
    match readYamlItems (if f.version = "v2" then 2 else 1) f.data with
    | .error err => .error err
    | .ok elems => .ok (buildIoColl f.description elems)

/-- A written file together with the format its filename suffix selected. -/
inductive FileData where
  | csv (f : CsvFile)
  | yaml (f : YamlFile)
deriving DecidableEq, Repr

/-- `entities_to_file`: refuse an empty entity set (`RuntimeError`), then
dispatch on the filename suffix (`.csv` to CSV, `.yml`/`.yaml` to YAML,
anything else `ValueError`). -/
def entitiesToFile (suffix : String) (description : String)
    (entities : List (String × EntityLike)) : Except MErr FileData :=
  if entities = [] then .error (.runtimeError "No data to write.")
  else if suffix = ".csv" then
    match entitiesToCsv description entities with
    | .error err => .error err
    | .ok f => .ok (.csv f)
  else if suffix = ".yml" ∨ suffix = ".yaml" then
    match entitiesToYaml description entities with
    | .error err => .error err
    | .ok f => .ok (.yaml f)
  else .error (.valueError "File type not supported.")

/-- `entities_from_file`: dispatch on the format of the file. -/
def entitiesFromFile : FileData → Except MErr IoCollection
  | .csv f => entitiesFromCsv f
  | .yaml f => entitiesFromYaml f

/-- `EntityCollection.to_file` composed over a collection: write the
collection's elements with its description. -/
def toFile (suffix : String) (c : IoCollection) : Except MErr FileData :=
  entitiesToFile suffix c.description c.attrs

/-- `from_file(to_file(C))`: write the collection, then read the file
back. -/
def roundTrip (suffix : String) (c : IoCollection) : Except MErr IoCollection :=
  match toFile suffix c with
  | .error err => .error err
  | .ok f => entitiesFromFile f

/-- Shape constraint the CSV table imposes on one value: with `scalar`
set, a scalar (a single number); otherwise a one-dimensional array of the
common column length `n`. -/
def shapeOk (scalar : Bool) (n : ℕ) (shape : List ℕ) (len : ℕ) : Bool :=
  if scalar then shape == [] && len == 1 else shape == [n] && len == n

/-- Conditions under which one element survives the CSV round trip: the
table shape constraint; entities wellformed; quantities not dimensionless
(an empty unit cell is read back as a raw column); raw columns all
numeric, or all strings with at least one cell that cannot be mistaken
for a number. -/
def csvEntryOk (scalar : Bool) (n : ℕ) : EntityLike → Bool
  | .entity e =>
    wfEntity e && shapeOk scalar n e.quantity.arr.shape e.quantity.arr.data.length
  | .quantity q =>
    (q.unit ≠ dimensionlessU) && shapeOk scalar n q.arr.shape q.arr.data.length
  | .raw r =>
    shapeOk scalar n r.shape r.data.length &&
      ((r.data.all fun c => match c with | .num _ => true | .str _ => false) ||
       ((r.data.all fun c => match c with | .num _ => false | .str _ => true) &&
        (r.data.any fun c =>
          match c with | .num _ => false | .str s => !isNumeralStr s)))

/-- A description line survives the strip-and-unprefix of the CSV reader:
prefixed with `"# "` it is strip-stable and does not contain the block
delimiter `"#--"`. -/
def descLineOk (l : String) : Bool :=
  pyStrip ("# " ++ l) == "# " ++ l && !containsSub ("# " ++ l) "#--"

/-- Every line of a collection description survives the CSV block. -/
def descOk (d : String) : Bool :=
  (splitLines d).all descLineOk

/-- Conditions under which a collection survives the CSV round trip:
reader-stable description and uniformly shaped values (all scalars, or
all one-dimensional of one length different from one, since a single-row
table is read back as scalars). -/
def csvOk (c : IoCollection) : Prop :=
  descOk c.description = true ∧
    ∃ scalar n, (scalar = true → n = 1) ∧ (scalar = false → n ≠ 1) ∧
      ∀ p ∈ c.attrs, csvEntryOk scalar n p.2 = true

/-- Condition for the YAML round trip: entities wellformed (everything
else survives unconditionally). -/
def yamlEntryOk : EntityLike → Bool
  | .entity e => wfEntity e
  | _ => true

theorem entityFinish_ok (label : String) (v : InitValue) (chosen : MUnit)
    (d : String) (e : Entity) (h : entityFinish label v chosen d = .ok e) :
    e.ontology_label = label ∧ e.quantity.unit = chosen ∧ e.description = d := by
  rcases v with a | q | ent
  · cases h
    exact ⟨rfl, rfl, rfl⟩
  · simp only [entityFinish] at h
    by_cases h2 : isEquivalent q.unit chosen = true
    · rw [if_pos h2] at h
      cases h
      exact ⟨rfl, rfl, rfl⟩
    · rw [if_neg h2] at h
      exact absurd h (by simp)
  · exact absurd h (by simp [entityFinish])

theorem entityInitCore_wf (label : String) (v : InitValue) (u : Option MUnit)
    (d : String) (e : Entity) (h : entityInitCore label v u d = .ok e) :
    wfEntity e = true := by
  unfold entityInitCore at h
  rcases hsi : extractSIUnits label with _ | si <;> simp only [hsi] at h
  · exact absurd h (by simp)
  · rcases hc : (match u, v with
        | none, InitValue.quantity q => some q.unit
        | uu, _ => uu) with _ | uu <;> simp only [hc] at h
    · obtain ⟨hl, hu, -⟩ := entityFinish_ok label v _ d e h
      simp [wfEntity, hl, hsi, hu, isEquivalent]
    · by_cases he : isEquivalent si uu = true
      · rw [if_pos he] at h
        obtain ⟨hl, hu, -⟩ := entityFinish_ok label v _ d e h
        simp only [wfEntity, hl, hsi, hu]
        exact he
      · rw [if_neg he] at h
        exact absurd h (by simp)

theorem entityInit_wf (label : String) (v : InitValue) (u : Option MUnit)
    (d : String) (e : Entity) (h : entityInit label v u d = .ok e) :
    wfEntity e = true := by
  rcases v with a | q | ent
  · exact entityInitCore_wf label _ u d e h
  · exact entityInitCore_wf label _ u d e h
  · simp only [entityInit] at h
    by_cases hl : ent.ontology_label ≠ label
    · rw [if_pos hl] at h
      exact absurd h (by simp)
    · rw [if_neg hl] at h
      exact entityInitCore_wf label _ u d e h

theorem close_scale_iff (s₁ s₂ x y : ℚ) (h : 0 < s₁) :
    (|x - y * (s₂ / s₁)| ≤ rtol * |y * (s₂ / s₁)|) ↔
      (|x * s₁ - y * s₂| ≤ rtol * |y * s₂|) := by
  have hx : x * s₁ - y * s₂ = (x - y * (s₂ / s₁)) * s₁ := by
    field_simp
  have hy : y * s₂ = y * (s₂ / s₁) * s₁ := by
    field_simp
  rw [hx, hy, abs_mul (x - y * (s₂ / s₁)) s₁, abs_mul (y * (s₂ / s₁)) s₁,
    abs_of_pos h, ← mul_assoc]
  exact (mul_le_mul_right h).symm

/-- C2 counterexample: the concept DemagnetizingFactor resolves to no unit
(the empty, dimensionless unit), yet supplying the non-empty unit percent
does not raise a unit-conversion error — construction succeeds, because
percent is convertible to the dimensionless unit.  This refutes the
clause that a concept resolving to no unit rejects every non-empty
supplied unit. -/
theorem entityInit_percent_accepted :
    extractSIUnits "DemagnetizingFactor" = some dimensionlessU ∧
    percentU ≠ dimensionlessU ∧
    entityInit "DemagnetizingFactor" (.arr ⟨[], [1]⟩) (some percentU) "" =
      .ok ⟨"DemagnetizingFactor", ⟨⟨[], [1]⟩, percentU⟩, ""⟩ := by
  refine ⟨rfl, ?_, ?_⟩
  · intro hcontra
    have := congrArg MUnit.scale hcontra
    norm_num [percentU, dimensionlessU] at this
  · rfl

/-- C2 (amended): for an array-like value and a caller-supplied unit `q`,
`Entity(L, v, unit=q)` raises a unit-conversion error exactly when `q` is
not convertible (dimensionally equivalent under the enabled equivalency
context) to the SI unit the ontology resolves for `L`; in particular a
concept resolving to a dimensional unit rejects the empty unit, while a
concept resolving to no unit accepts any dimensionless-convertible unit
(such as percent) and rejects only units of non-zero dimension. -/
theorem entityInit_unit_check (L : String) (si : MUnit) (v : NumArr)
    (q : MUnit) (d : String) (hsi : extractSIUnits L = some si) :
    (isUnitConversionError (entityInit L (.arr v) (some q) d)
        = !(isEquivalent si q)) ∧
    (si.dims ≠ dimensionlessU.dims →
      isUnitConversionError (entityInit L (.arr v) (some dimensionlessU) d)
        = true) := by
  constructor
  · show isUnitConversionError (entityInitCore L (.arr v) (some q) d) = _
    unfold entityInitCore
    rw [hsi]
    by_cases he : isEquivalent si q = true
    · simp [he, entityFinish, isUnitConversionError]
    · simp only [Bool.not_eq_true] at he
      simp [he, isUnitConversionError]
  · intro hd
    show isUnitConversionError
        (entityInitCore L (.arr v) (some dimensionlessU) d) = true
    unfold entityInitCore
    rw [hsi]
    have he : isEquivalent si dimensionlessU = false := by
      simpa [isEquivalent] using hd
    simp [he, isUnitConversionError]

/-- C2 witness: SpontaneousMagnetization resolves to A/m, and the theorem
applies there with the supplied unit tesla. -/
theorem entityInit_unit_check_witness :
    extractSIUnits "SpontaneousMagnetization" = some AmPerM ∧
    ((isUnitConversionError
        (entityInit "SpontaneousMagnetization" (.arr ⟨[], [1]⟩)
          (some teslaU) "") = !(isEquivalent AmPerM teslaU)) ∧
      (AmPerM.dims ≠ dimensionlessU.dims →
        isUnitConversionError
          (entityInit "SpontaneousMagnetization" (.arr ⟨[], [1]⟩)
            (some dimensionlessU) "") = true)) :=
  ⟨rfl, entityInit_unit_check "SpontaneousMagnetization" AmPerM ⟨[], [1]⟩
    teslaU "" rfl⟩

theorem allclose_scale (s₁ s₂ : ℚ) (h : 0 < s₁) (a b : List ℚ) :
    allcloseQ a (b.map (· * (s₂ / s₁))) =
      allcloseQ (a.map (· * s₁)) (b.map (· * s₂)) := by
  induction a generalizing b with
  | nil => cases b <;> simp [allcloseQ]
  | cons x xs ih =>
    cases b with
    | nil => simp [allcloseQ]
    | cons y ys =>
      simp only [List.map_cons, allcloseQ, ih]
      congr 1
      rw [decide_eq_decide]
      have := close_scale_iff s₁ s₂ x y h
      constructor
      · intro hle
        exact (this.mp (by simpa [mul_comm] using hle))
      · intro hle
        simpa [mul_comm] using this.mpr hle

/-- C3: two entities compare equal exactly when they carry the same
concept label, the same shape, and numerically close values once both are
expressed in a common unit (here: the coherent scale-1 unit of their
dimension); consequently unit prefixes do not affect equality (an entity
of 1 kA/m equals one of 1000 A/m under any concept resolving to A/m) and
the description never influences the outcome. -/
theorem entityEq_spec (e₁ e₂ : Entity) (h : 0 < e₁.quantity.unit.scale) :
    (entityEq e₁ e₂ = true ↔
      (e₁.ontology_label = e₂.ontology_label ∧
       e₁.quantity.arr.shape = e₂.quantity.arr.shape ∧
       allcloseQ (e₁.quantity.arr.data.map (· * e₁.quantity.unit.scale))
         (e₂.quantity.arr.data.map (· * e₂.quantity.unit.scale)) = true)) ∧
    (∀ d₁ d₂ : String,
      entityEq { e₁ with description := d₁ } { e₂ with description := d₂ }
        = entityEq e₁ e₂) ∧
    (∀ L : String, extractSIUnits L = some AmPerM →
      ∃ a b : Entity,
        entityInit L (.arr ⟨[], [1]⟩) (some kAmPerM) "" = .ok a ∧
        entityInit L (.arr ⟨[], [1000]⟩) (some AmPerM) "" = .ok b ∧
        entityEq a b = true) := by
  refine ⟨?_, fun d₁ d₂ => rfl, fun L hL => ?_⟩
  · unfold entityEq MQuantity.convertTo convFactor
    rw [← allclose_scale _ _ h]
    simp [Bool.and_eq_true, and_assoc]
  · refine ⟨⟨L, ⟨⟨[], [1]⟩, kAmPerM⟩, ""⟩, ⟨L, ⟨⟨[], [1000]⟩, AmPerM⟩, ""⟩,
      ?_, ?_, ?_⟩
    · show entityInitCore L (.arr ⟨[], [1]⟩) (some kAmPerM) "" = _
      simp [entityInitCore, hL, entityFinish, isEquivalent, AmPerM, kAmPerM]
    · show entityInitCore L (.arr ⟨[], [1000]⟩) (some AmPerM) "" = _
      simp [entityInitCore, hL, entityFinish, isEquivalent, AmPerM, kAmPerM]
    · norm_num [entityEq, MQuantity.convertTo, convFactor, allcloseQ,
        kAmPerM, AmPerM, rtol]

/-- C3 witness: the theorem applied to two concrete spontaneous
magnetization entities (1 kA/m and 1000 A/m), whose unit scale is
positive; their equality then follows from the prefix-invariance part. -/
theorem entityEq_spec_witness :
    (0 : ℚ) < (Entity.mk "SpontaneousMagnetization"
        ⟨⟨[], [1]⟩, kAmPerM⟩ "note").quantity.unit.scale ∧
    (entityEq ⟨"SpontaneousMagnetization", ⟨⟨[], [1]⟩, kAmPerM⟩, "note"⟩
        ⟨"SpontaneousMagnetization", ⟨⟨[], [1]⟩, kAmPerM⟩, "note"⟩ = true ↔
      ("SpontaneousMagnetization" = "SpontaneousMagnetization" ∧
       ([] : List ℕ) = [] ∧
       allcloseQ ([1].map (· * kAmPerM.scale))
         ([1].map (· * kAmPerM.scale)) = true)) :=
  ⟨by norm_num [kAmPerM],
    (entityEq_spec ⟨"SpontaneousMagnetization", ⟨⟨[], [1]⟩, kAmPerM⟩, "note"⟩
      ⟨"SpontaneousMagnetization", ⟨⟨[], [1]⟩, kAmPerM⟩, "note"⟩
      (by norm_num [kAmPerM])).1⟩

/-- C4 counterexample: `Entity` is not an immutable value container — the
class exposes a public `description` property setter, so assigning a new
description after construction changes the entity in place.  Shown on a
concretely constructed CurieTemperature entity. -/
theorem entity_description_mutable :
    entityInit "CurieTemperature" (.arr ⟨[], [0]⟩) none "a" =
      .ok ⟨"CurieTemperature", ⟨⟨[], [0]⟩, ⟨1, kelvinU.dims⟩⟩, "a"⟩ ∧
    setDescription ⟨"CurieTemperature", ⟨⟨[], [0]⟩, ⟨1, kelvinU.dims⟩⟩, "a"⟩
        "b" =
      .ok ⟨"CurieTemperature", ⟨⟨[], [0]⟩, ⟨1, kelvinU.dims⟩⟩, "b"⟩ ∧
    (Entity.mk "CurieTemperature" ⟨⟨[], [0]⟩, ⟨1, kelvinU.dims⟩⟩
        "b").description ≠
      (Entity.mk "CurieTemperature" ⟨⟨[], [0]⟩, ⟨1, kelvinU.dims⟩⟩
        "a").description :=
  ⟨rfl, rfl, by decide⟩

/-- C4 (amended): after construction the concept label, value and unit of
an entity are immutable — the only mutating operation the class exposes,
the `description` property setter, replaces the description and leaves
label and quantity (value and unit) unchanged; all other operations are
read-only and no global state is touched. -/
theorem setDescription_frame (e e' : Entity) (s : String)
    (h : setDescription e s = .ok e') :
    e'.ontology_label = e.ontology_label ∧ e'.quantity = e.quantity ∧
      e'.description = s := by
  cases h
  exact ⟨rfl, rfl, rfl⟩

/-- C4 witness: the frame theorem applied to a concrete entity. -/
theorem setDescription_frame_witness :
    setDescription ⟨"CurieTemperature", ⟨⟨[], [0]⟩, kelvinU⟩, "a"⟩ "b" =
      .ok ⟨"CurieTemperature", ⟨⟨[], [0]⟩, kelvinU⟩, "b"⟩ ∧
    ((Entity.mk "CurieTemperature" ⟨⟨[], [0]⟩, kelvinU⟩ "b").ontology_label =
        (Entity.mk "CurieTemperature" ⟨⟨[], [0]⟩, kelvinU⟩ "a").ontology_label ∧
      (Entity.mk "CurieTemperature" ⟨⟨[], [0]⟩, kelvinU⟩ "b").quantity =
        (Entity.mk "CurieTemperature" ⟨⟨[], [0]⟩, kelvinU⟩ "a").quantity ∧
      (Entity.mk "CurieTemperature" ⟨⟨[], [0]⟩, kelvinU⟩ "b").description =
        "b") :=
  ⟨rfl, setDescription_frame ⟨"CurieTemperature", ⟨⟨[], [0]⟩, kelvinU⟩, "a"⟩
    ⟨"CurieTemperature", ⟨⟨[], [0]⟩, kelvinU⟩, "b"⟩ "b" rfl⟩

theorem entityInit_arr_ok (L : String) (a : NumArr) (u : MUnit) (d : String)
    (e : Entity) (h : entityInit L (.arr a) (some u) d = .ok e) :
    e = ⟨L, ⟨a, u⟩, d⟩ := by
  replace h : entityInitCore L (.arr a) (some u) d = .ok e := h
  unfold entityInitCore at h
  rcases hsi : extractSIUnits L with _ | si <;> simp only [hsi] at h
  · exact absurd h (by simp)
  · by_cases he : isEquivalent si u = true
    · rw [if_pos he] at h
      cases h
      rfl
    · rw [if_neg he] at h
      exact absurd h (by simp)

/-- C6: `concat_flat` requires at least one entity and a single shared
ontology label among the entity elements (`ValueError` otherwise); when it
succeeds, the result is one entity under that shared label whose unit is
the explicit unit argument if given (else the unit of the first entity),
and whose value is every element flattened row-major, converted to that
target unit, and concatenated in input order. -/
theorem concatFlat_spec (args : List ConcatArg) (u : Option MUnit)
    (d : String) :
    (entityLabels (spliceArgs args) = [] →
      concatFlat args u d =
        .error (.valueError "At least one Entity is required.")) ∧
    (∀ l₀ rest, entityLabels (spliceArgs args) = l₀ :: rest →
      rest.any (fun l => l ≠ l₀) = true →
      concatFlat args u d = .error (.valueError
        "Entities with different ontology labels are not supported.")) ∧
    (∀ e, concatFlat args u d = .ok e →
      ∃ l₀ rest fu datas,
        entityLabels (spliceArgs args) = l₀ :: rest ∧
        rest.all (fun l => l == l₀) = true ∧
        firstEntityUnit (spliceArgs args) = some fu ∧
        mapFlattenConvert (u.getD fu) (spliceArgs args) = .ok datas ∧
        e = ⟨l₀, ⟨⟨[datas.flatten.length], datas.flatten⟩, u.getD fu⟩, d⟩) := by
  refine ⟨?_, ?_, ?_⟩
  · intro h0
    unfold concatFlat
    simp only [h0]
  · intro l₀ rest hl hany
    unfold concatFlat
    simp only [hl, hany, if_true]
  · intro e h
    unfold concatFlat at h
    rcases hl : entityLabels (spliceArgs args) with _ | ⟨l₀, rest⟩ <;>
        simp only [hl] at h
    · exact absurd h (by simp)
    · by_cases hany : rest.any (fun l => decide (l ≠ l₀)) = true
      · simp only [hany, if_true] at h
        exact absurd h (by simp)
      · simp only [hany, if_false, Bool.false_eq_true] at h
        rcases hfu : firstEntityUnit (spliceArgs args) with _ | fu <;>
            simp only [hfu] at h
        · exact absurd h (by simp)
        · rcases hm : mapFlattenConvert (u.getD fu) (spliceArgs args)
              with err | datas <;> simp only [hm] at h
          · exact absurd h (by simp)
          · refine ⟨l₀, rest, fu, datas, rfl, ?_, rfl, hm,
              entityInit_arr_ok _ _ _ _ _ h⟩
            rw [List.all_eq_true]
            intro x hx
            by_contra hne
            exact hany (List.any_eq_true.mpr ⟨x, hx, by simpa using hne⟩)

/-- C6 witness: concatenating two scalar spontaneous-magnetization
entities (the Concat example of the spec), with the success clause of the
theorem instantiated on the computed result. -/
theorem concatFlat_spec_witness :
    concatFlat
        [.single (.entity ⟨"SpontaneousMagnetization", ⟨⟨[], [1]⟩, AmPerM⟩, ""⟩),
         .single (.entity ⟨"SpontaneousMagnetization", ⟨⟨[], [2]⟩, AmPerM⟩, ""⟩)]
        none "" =
      .ok ⟨"SpontaneousMagnetization", ⟨⟨[2], [1, 2]⟩, AmPerM⟩, ""⟩ ∧
    (∃ l₀ rest fu datas,
      entityLabels (spliceArgs
        [.single (.entity ⟨"SpontaneousMagnetization", ⟨⟨[], [1]⟩, AmPerM⟩, ""⟩),
         .single (.entity ⟨"SpontaneousMagnetization", ⟨⟨[], [2]⟩, AmPerM⟩, ""⟩)])
        = l₀ :: rest ∧
      rest.all (fun l => l == l₀) = true ∧
      firstEntityUnit (spliceArgs
        [.single (.entity ⟨"SpontaneousMagnetization", ⟨⟨[], [1]⟩, AmPerM⟩, ""⟩),
         .single (.entity ⟨"SpontaneousMagnetization", ⟨⟨[], [2]⟩, AmPerM⟩, ""⟩)])
        = some fu ∧
      mapFlattenConvert ((none : Option MUnit).getD fu) (spliceArgs
        [.single (.entity ⟨"SpontaneousMagnetization", ⟨⟨[], [1]⟩, AmPerM⟩, ""⟩),
         .single (.entity ⟨"SpontaneousMagnetization", ⟨⟨[], [2]⟩, AmPerM⟩, ""⟩)])
        = .ok datas ∧
      (Entity.mk "SpontaneousMagnetization" ⟨⟨[2], [1, 2]⟩, AmPerM⟩ "") =
        ⟨l₀, ⟨⟨[datas.flatten.length], datas.flatten⟩,
          (none : Option MUnit).getD fu⟩, ""⟩) := by
  have h0 : concatFlat
      [.single (.entity ⟨"SpontaneousMagnetization", ⟨⟨[], [1]⟩, AmPerM⟩, ""⟩),
       .single (.entity ⟨"SpontaneousMagnetization", ⟨⟨[], [2]⟩, AmPerM⟩, ""⟩)]
      none "" =
      .ok ⟨"SpontaneousMagnetization",
        ⟨⟨[2], [1 * (1 / 1), 2 * (1 / 1)]⟩, AmPerM⟩, ""⟩ := rfl
  have h2 : (Entity.mk "SpontaneousMagnetization"
        ⟨⟨[2], [1 * (1 / 1), 2 * (1 / 1)]⟩, AmPerM⟩ "") =
      ⟨"SpontaneousMagnetization", ⟨⟨[2], [1, 2]⟩, AmPerM⟩, ""⟩ := by
    norm_num
  have h : concatFlat
      [.single (.entity ⟨"SpontaneousMagnetization", ⟨⟨[], [1]⟩, AmPerM⟩, ""⟩),
       .single (.entity ⟨"SpontaneousMagnetization", ⟨⟨[], [2]⟩, AmPerM⟩, ""⟩)]
      none "" =
      .ok ⟨"SpontaneousMagnetization", ⟨⟨[2], [1, 2]⟩, AmPerM⟩, ""⟩ := by
    rw [h0, h2]
  exact ⟨h, (concatFlat_spec _ none "").2.2 _ h⟩

theorem entityLabels_firstUnit (elems : List EntityLike) (l : String)
    (rest : List String) (h : entityLabels elems = l :: rest) :
    ∃ fu, firstEntityUnit elems = some fu := by
  induction elems with
  | nil => exact absurd h (by simp [entityLabels])
  | cons x xs ih =>
    cases x with
    | entity e => exact ⟨e.quantity.unit, rfl⟩
    | quantity q =>
        obtain ⟨fu, hfu⟩ := ih (by simpa [entityLabels] using h)
        exact ⟨fu, by simpa [firstEntityUnit] using hfu⟩
    | raw r =>
        obtain ⟨fu, hfu⟩ := ih (by simpa [entityLabels] using h)
        exact ⟨fu, by simpa [firstEntityUnit] using hfu⟩

theorem storeGet_storeSet_ne (σ : Store) (i j : ℕ) (c : IoCollection)
    (h : j ≠ i) : storeGet (storeSet σ i c) j = storeGet σ j := by
  unfold storeGet storeSet
  rw [List.getD_eq_getElem?_getD, List.getD_eq_getElem?_getD,
    List.getElem?_set_ne (fun hh => h hh.symm)]

theorem storeGet_append_lt (σ τ : Store) (j : ℕ) (h : j < List.length σ) :
    storeGet (List.append σ τ) j = storeGet σ j := by
  unfold storeGet
  rw [List.getD_eq_getElem?_getD, List.getD_eq_getElem?_getD,
    List.append_eq, List.getElem?_append_left h]

theorem harmonizePass_frame (pi oi j : ℕ) (hpj : j ≠ pi) (hoj : j ≠ oi) :
    ∀ (keys : List String) (σ σ' : Store),
    harmonizePass pi oi σ keys = .ok σ' → storeGet σ' j = storeGet σ j := by
  intro keys
  induction keys with
  | nil =>
    intro σ σ' h
    cases h
    rfl
  | cons k rest ih =>
    intro σ σ' h
    unfold harmonizePass at h
    repeat' split at h
    all_goals first
      | exact absurd h (by simp)
      | exact ih _ _ h
      | (rw [ih _ _ h, storeGet_storeSet_ne _ _ _ _ hoj,
          storeGet_storeSet_ne _ _ _ _ hpj])
      | (rw [ih _ _ h, storeGet_storeSet_ne _ _ _ _ hoj])

theorem harmonizeOnPass_frame (pi oi j : ℕ) ( _hpj : j ≠ pi) (hoj : j ≠ oi) :
    ∀ (pks oks : List String) (σ σ' : Store),
    harmonizeOnPass pi oi σ pks oks = .ok σ' →
    storeGet σ' j = storeGet σ j := by
  intro pks
  induction pks with
  | nil =>
    intro oks σ σ' h
    cases oks with
    | nil =>
      cases h
      rfl
    | cons o os => exact absurd h (by simp [harmonizeOnPass])
  | cons pk prest ih =>
    intro oks σ σ' h
    cases oks with
    | nil => exact absurd h (by simp [harmonizeOnPass])
    | cons ok' orest =>
      unfold harmonizeOnPass at h
      repeat' split at h
      all_goals first
        | exact absurd h (by simp)
        | exact ih _ _ _ h
        | (rw [ih _ _ _ h, storeGet_storeSet_ne _ _ _ _ hoj])

/-- C7: `merge` never mutates the caller's collections: whatever keyword
arguments are passed and whether the call returns a merged collection or
an error, the collections at the caller's references are unchanged in the
final store — `merge` deep-copies both inputs and performs every
`setattr` of its harmonization passes on the copies. -/
theorem merge_frame (σ : Store) (li ri : ℕ) (kw : MergeKwargs)
    (hl : li < List.length σ) (hr : ri < List.length σ) :
    storeGet (merge σ li ri kw).2 li = storeGet σ li ∧
    storeGet (merge σ li ri kw).2 ri = storeGet σ ri := by
  have key : ∀ j, j < List.length σ →
      storeGet (merge σ li ri kw).2 j = storeGet σ j := by
    intro j hj
    have hpj : ∀ b : Bool,
        j ≠ (if b then List.length σ + 1 else List.length σ) := by
      intro b
      cases b <;> simp <;> omega
    have hoj : ∀ b : Bool,
        j ≠ (if b then List.length σ else List.length σ + 1) := by
      intro b
      cases b <;> simp <;> omega
    simp only [merge]
    have hσ₁ : storeGet
        (List.append σ [deepcopy (storeGet σ li), deepcopy (storeGet σ ri)]) j
        = storeGet σ j := storeGet_append_lt _ _ _ hj
    split
    · exact hσ₁
    · rename_i σ₂ h₂
      have hσ₂ : storeGet σ₂ j = storeGet σ j := by
        rw [harmonizePass_frame _ _ j (hpj _) (hoj _) _ _ _ h₂, hσ₁]
      split
      · exact hσ₂
      · rename_i σ₃ h₃
        have hσ₃ : storeGet σ₃ j = storeGet σ j := by
          revert h₃
          split
          · split
            · intro h₃
              rw [harmonizeOnPass_frame _ _ j (hpj true) (hoj true)
                _ _ _ _ h₃, hσ₂]
            · intro h₃
              rw [harmonizeOnPass_frame _ _ j (hpj false) (hoj false)
                _ _ _ _ h₃, hσ₂]
          · intro h₃
            cases h₃
            exact hσ₂
        repeat' split
        all_goals exact hσ₃
  exact ⟨key li hl, key ri hr⟩

/-- C7 witness: the frame theorem applied to a concrete two-collection
store. -/
theorem merge_frame_witness :
    (0 < List.length
        [IoCollection.mk "" [("x", .raw ⟨[1], [.num 1]⟩)],
         IoCollection.mk "" [("x", .raw ⟨[1], [.num 2]⟩)]]) ∧
    (1 < List.length
        [IoCollection.mk "" [("x", .raw ⟨[1], [.num 1]⟩)],
         IoCollection.mk "" [("x", .raw ⟨[1], [.num 2]⟩)]]) ∧
    (storeGet (merge
        [IoCollection.mk "" [("x", .raw ⟨[1], [.num 1]⟩)],
         IoCollection.mk "" [("x", .raw ⟨[1], [.num 2]⟩)]] 0 1 {}).2 0 =
      storeGet
        [IoCollection.mk "" [("x", .raw ⟨[1], [.num 1]⟩)],
         IoCollection.mk "" [("x", .raw ⟨[1], [.num 2]⟩)]] 0 ∧
     storeGet (merge
        [IoCollection.mk "" [("x", .raw ⟨[1], [.num 1]⟩)],
         IoCollection.mk "" [("x", .raw ⟨[1], [.num 2]⟩)]] 0 1 {}).2 1 =
      storeGet
        [IoCollection.mk "" [("x", .raw ⟨[1], [.num 1]⟩)],
         IoCollection.mk "" [("x", .raw ⟨[1], [.num 2]⟩)]] 1) :=
  ⟨by decide, by decide,
    merge_frame
      [IoCollection.mk "" [("x", .raw ⟨[1], [.num 1]⟩)],
       IoCollection.mk "" [("x", .raw ⟨[1], [.num 2]⟩)]] 0 1 {}
      (by decide) (by decide)⟩

theorem find?_assocSet_self {α : Type} (l : List (String × α)) (k : String)
    (v : α) : (assocSet l k v).find? (fun p => p.1 == k) = some (k, v) := by
  induction l with
  | nil => simp [assocSet]
  | cons a rest ih =>
    simp only [assocSet]
    by_cases hk : a.1 = k
    · rw [if_pos hk]
      rw [List.find?_cons_of_pos _ (by simpa using hk)]
      rw [hk]
    · rw [if_neg hk]
      rw [List.find?_cons_of_neg _ (by simpa using hk)]
      exact ih

theorem find?_assocSet_ne {α : Type} (l : List (String × α)) (k k' : String)
    (v : α) (h : k ≠ k') :
    (assocSet l k' v).find? (fun p => p.1 == k) =
      l.find? (fun p => p.1 == k) := by
  induction l with
  | nil =>
    simp only [assocSet, List.find?]
    have hne : (k' == k) = false := by
      simpa using Ne.symm h
    simp [hne]
  | cons a rest ih =>
    simp only [assocSet]
    by_cases hk : a.1 = k'
    · rw [if_pos hk]
      have hne : (a.1 == k) = false := by
        rw [hk]
        simpa using Ne.symm h
      rw [List.find?_cons_of_neg _ (by simpa using hne),
        List.find?_cons_of_neg _ (by simpa using hne)]
    · rw [if_neg hk]
      by_cases ha : a.1 = k
      · rw [List.find?_cons_of_pos _ (by simpa using ha),
          List.find?_cons_of_pos _ (by simpa using ha)]
      · rw [List.find?_cons_of_neg _ (by simpa using ha),
          List.find?_cons_of_neg _ (by simpa using ha)]
        exact ih

theorem ioGetattr_ioSetattr_ne (c : IoCollection) (k k' : String)
    (v : EntityLike) (h : k ≠ k') :
    ioGetattr (ioSetattr c k' v) k = ioGetattr c k := by
  unfold ioGetattr ioSetattr
  by_cases hd : k = "_description" ∨ k = "description"
  · rw [if_pos hd, if_pos hd]
  · rw [if_neg hd, if_neg hd, find?_assocSet_ne _ _ _ _ h]

theorem ioGetattr_ioSetattr_self (c : IoCollection) (k : String)
    (v : EntityLike) (hd : ¬ (k = "_description" ∨ k = "description")) :
    ioGetattr (ioSetattr c k v) k = some (.like v) := by
  unfold ioGetattr ioSetattr
  rw [if_neg hd, find?_assocSet_self]
  rfl

theorem wfColl_ioSetattr (c : IoCollection) (k : String) (v : EntityLike)
    (hc : wfColl c = true) (hv : wfLike v = true) :
    wfColl (ioSetattr c k v) = true := by
  unfold wfColl ioSetattr
  unfold wfColl at hc
  simp only [List.all_eq_true] at hc ⊢
  intro p hp
  have : ∀ l : List (String × EntityLike),
      (∀ q ∈ l, (match q.2 with
        | .entity e => wfEntity e
        | _ => true) = true) →
      p ∈ assocSet l k v → (match p.2 with
        | .entity e => wfEntity e
        | _ => true) = true := by
    intro l
    induction l with
    | nil =>
      intro _ hmem
      simp [assocSet] at hmem
      rw [hmem]
      exact hv
    | cons a rest ih =>
      intro hall hmem
      simp only [assocSet] at hmem
      by_cases hk : a.1 = k
      · rw [if_pos hk] at hmem
        rcases List.mem_cons.mp hmem with h1 | h2
        · rw [h1]
          exact hv
        · exact hall p (List.mem_cons_of_mem _ h2)
      · rw [if_neg hk] at hmem
        rcases List.mem_cons.mp hmem with h1 | h2
        · exact hall p (h1 ▸ List.mem_cons_self _ _)
        · exact ih (fun q hq => hall q (List.mem_cons_of_mem _ hq)) h2
  exact this c.attrs hc hp

theorem wfColl_getattr (c : IoCollection) (k : String) (v : EntityLike)
    (hc : wfColl c = true) (h : ioGetattr c k = some (.like v)) :
    wfLike v = true := by
  unfold ioGetattr at h
  by_cases hd : k = "_description" ∨ k = "description"
  · rw [if_pos hd] at h
    exact absurd h (by simp)
  · rw [if_neg hd] at h
    rcases hf : c.attrs.find? (fun p => p.1 == k) with _ | p
    · rw [hf] at h
      exact absurd h (by simp)
    · rw [hf] at h
      have hmem := List.mem_of_find?_eq_some hf
      have hv : p.2 = v := by
        simpa using h
      unfold wfColl at hc
      rw [List.all_eq_true] at hc
      have := hc p hmem
      rw [hv] at this
      cases v <;> simp_all [wfLike]

theorem wf_same_label_equiv (pe oe : Entity) (hp : wfEntity pe = true)
    (ho : wfEntity oe = true)
    (hl : pe.ontology_label = oe.ontology_label) :
    isEquivalent oe.quantity.unit pe.quantity.unit = true := by
  unfold wfEntity at hp ho
  rcases hsi : extractSIUnits pe.ontology_label with _ | si
  · rw [hsi] at hp
    exact absurd hp (by simp)
  · rw [hsi] at hp
    rw [← hl, hsi] at ho
    simp only [isEquivalent] at hp ho ⊢
    have h1 : si.dims = pe.quantity.unit.dims := by simpa using hp
    have h2 : si.dims = oe.quantity.unit.dims := by simpa using ho
    simp [← h1, ← h2]

theorem entityInit_quantity_ok (L : String) (q : MQuantity) (si : MUnit)
    (hsi : extractSIUnits L = some si)
    (he : isEquivalent si q.unit = true) :
    entityInit L (.quantity q) none "" = .ok ⟨L, q.convertTo q.unit, ""⟩ := by
  show entityInitCore L (.quantity q) none "" = _
  unfold entityInitCore
  rw [hsi]
  simp only [isEquivalent] at he
  simp [he, entityFinish, isEquivalent, eq_of_beq he]

theorem storeGet_storeSet_self (σ : Store) (i : ℕ) (c : IoCollection)
    (h : i < List.length σ) : storeGet (storeSet σ i c) i = c := by
  unfold storeGet storeSet
  rw [List.getD_eq_getElem?_getD, List.getElem?_set_self (by simpa using h)]
  rfl

theorem ioGetattr_like_not_desc (c : IoCollection) (k : String)
    (v : EntityLike) (h : ioGetattr c k = some (.like v)) :
    ¬ (k = "_description" ∨ k = "description") := by
  intro hd
  unfold ioGetattr at h
  rw [if_pos hd] at h
  exact absurd h (by simp)

theorem wfEntity_elim (e : Entity) (h : wfEntity e = true) :
    ∃ si, extractSIUnits e.ontology_label = some si ∧
      isEquivalent si e.quantity.unit = true := by
  unfold wfEntity at h
  rcases hsi : extractSIUnits e.ontology_label with _ | si
  · rw [hsi] at h
    exact absurd h (by simp)
  · rw [hsi] at h
    exact ⟨si, rfl, by simpa [isEquivalent] using h⟩

theorem isEquivalent_trans (a b c : MUnit)
    (h1 : isEquivalent a b = true) (h2 : isEquivalent b c = true) :
    isEquivalent a c = true := by
  simp only [isEquivalent, beq_iff_eq] at h1 h2 ⊢
  rw [h1, h2]

/-- If some matching key holds entities with different ontology labels on
the two sides, the harmonization pass of `merge` fails with `ValueError`
(it may trip over a different conflicting key first, but always with a
`ValueError`), provided every matching key is present on both sides and
all stored entities are wellformed. -/
theorem harmonizePass_label_conflict (pi oi : ℕ) (hpo : pi ≠ oi) :
    ∀ (keys : List String) (σ : Store) (kbad : String) (pe oe : Entity),
    pi < List.length σ → oi < List.length σ →
    kbad ∈ keys →
    ioGetattr (storeGet σ pi) kbad = some (.like (.entity pe)) →
    ioGetattr (storeGet σ oi) kbad = some (.like (.entity oe)) →
    pe.ontology_label ≠ oe.ontology_label →
    (∀ k' ∈ keys, (ioGetattr (storeGet σ pi) k').isSome ∧
      (ioGetattr (storeGet σ oi) k').isSome) →
    wfColl (storeGet σ pi) = true → wfColl (storeGet σ oi) = true →
    ∃ msg, harmonizePass pi oi σ keys = .error (.valueError msg) := by
  intro keys
  induction keys with
  | nil =>
    intro σ kbad pe oe _ _ hmem
    exact absurd hmem (by simp)
  | cons k rest ih =>
    intro σ kbad pe oe hpσ hoσ hmem hgp hgo hlab hpres hwp hwo
    have hpres_rest : ∀ k' ∈ rest,
        (ioGetattr (storeGet σ pi) k').isSome ∧
        (ioGetattr (storeGet σ oi) k').isSome :=
      fun k' hk' => hpres k' (List.mem_cons_of_mem _ hk')
    by_cases hk : k = kbad
    · subst hk
      refine ⟨"incompatible ontology labels", ?_⟩
      unfold harmonizePass
      rw [hgp, hgo]
      simp [hlab]
    · have hmem' : kbad ∈ rest := by
        rcases List.mem_cons.mp hmem with h1 | h2
        · exact absurd h1.symm hk
        · exact h2
      obtain ⟨hp1, hp2⟩ := hpres k (by simp)
      rcases hga : ioGetattr (storeGet σ pi) k with _ | a
      · rw [hga] at hp1
        exact absurd hp1 (by simp)
      rcases hgb : ioGetattr (storeGet σ oi) k with _ | b
      · rw [hgb] at hp2
        exact absurd hp2 (by simp)
      -- a recursion-setup helper for steps that update the non-preferred
      -- side only
      have setupOther : ∀ (w : EntityLike), wfLike w = true →
          ¬ (k = "_description" ∨ k = "description") →
          (∃ msg, harmonizePass pi oi
            (storeSet σ oi (ioSetattr (storeGet σ oi) k w)) rest =
            .error (.valueError msg)) := by
        intro w hw hb_nd
        apply ih (storeSet σ oi (ioSetattr (storeGet σ oi) k w)) kbad pe oe
        · simpa [storeSet, List.length_set] using hpσ
        · simpa [storeSet, List.length_set] using hoσ
        · exact hmem'
        · rw [storeGet_storeSet_ne _ _ _ _ hpo]
          exact hgp
        · rw [storeGet_storeSet_self _ _ _ hoσ,
            ioGetattr_ioSetattr_ne _ _ _ _ (Ne.symm hk)]
          exact hgo
        · exact hlab
        · intro k' hk'
          obtain ⟨q1, q2⟩ := hpres_rest k' hk'
          refine ⟨?_, ?_⟩
          · rw [storeGet_storeSet_ne _ _ _ _ hpo]
            exact q1
          · rw [storeGet_storeSet_self _ _ _ hoσ]
            by_cases hkk : k' = k
            · subst hkk
              rw [ioGetattr_ioSetattr_self _ _ _ hb_nd]
              simp
            · rw [ioGetattr_ioSetattr_ne _ _ _ _ hkk]
              exact q2
        · rw [storeGet_storeSet_ne _ _ _ _ hpo]
          exact hwp
        · rw [storeGet_storeSet_self _ _ _ hoσ]
          exact wfColl_ioSetattr _ _ _ hwo hw
      rcases a with la | sa
      · rcases b with lb | sb
        · rcases la with pe' | pq' | pr'
          · rcases lb with oe' | oq' | or'
            · -- entity / entity
              by_cases hl' : pe'.ontology_label = oe'.ontology_label
              · have hwpe' : wfEntity pe' = true := by
                  simpa [wfLike] using wfColl_getattr _ _ _ hwp hga
                have hwoe' : wfEntity oe' = true := by
                  simpa [wfLike] using wfColl_getattr _ _ _ hwo hgb
                have hequiv := wf_same_label_equiv pe' oe' hwpe' hwoe' hl'
                obtain ⟨si, hsi, hesi⟩ := wfEntity_elim pe' hwpe'
                have hinit := entityInit_quantity_ok pe'.ontology_label
                  (oe'.quantity.convertTo pe'.quantity.unit) si hsi hesi
                obtain ⟨msg, hrec⟩ := setupOther
                  (.entity ⟨pe'.ontology_label,
                    ((oe'.quantity.convertTo pe'.quantity.unit).convertTo
                      (oe'.quantity.convertTo pe'.quantity.unit).unit), ""⟩)
                  (by
                    have := entityInit_wf _ _ _ _ _ hinit
                    simpa [wfLike] using this)
                  (ioGetattr_like_not_desc _ _ _ hgb)
                refine ⟨msg, ?_⟩
                unfold harmonizePass
                simp only [hga, hgb]
                rw [if_neg (by simp [hl']), if_neg (by simp [hequiv]), hinit]
                exact hrec
              · refine ⟨"incompatible ontology labels", ?_⟩
                unfold harmonizePass
                simp only [hga, hgb]
                simp [hl']
            · -- entity / quantity
              by_cases he' : isEquivalent pe'.quantity.unit oq'.unit = true
              · have hwpe' : wfEntity pe' = true := by
                  simpa [wfLike] using wfColl_getattr _ _ _ hwp hga
                obtain ⟨si, hsi, hesi⟩ := wfEntity_elim pe' hwpe'
                have hinit := entityInit_quantity_ok pe'.ontology_label
                  (oq'.convertTo pe'.quantity.unit) si hsi hesi
                obtain ⟨msg, hrec⟩ := setupOther
                  (.entity ⟨pe'.ontology_label,
                    ((oq'.convertTo pe'.quantity.unit).convertTo
                      (oq'.convertTo pe'.quantity.unit).unit), ""⟩)
                  (by
                    have := entityInit_wf _ _ _ _ _ hinit
                    simpa [wfLike] using this)
                  (ioGetattr_like_not_desc _ _ _ hgb)
                refine ⟨msg, ?_⟩
                unfold harmonizePass
                simp only [hga, hgb]
                rw [if_neg (by simp [he']), hinit]
                exact hrec
              · refine ⟨"incompatible units", ?_⟩
                unfold harmonizePass
                simp only [hga, hgb]
                simp [he']
            · -- entity / raw: fall-through
              refine ih σ kbad pe oe hpσ hoσ hmem' ?_ ?_ hlab hpres_rest hwp hwo
                |>.imp fun msg hmsg => ?_
              · exact hgp
              · exact hgo
              · unfold harmonizePass
                simp only [hga, hgb]
                simpa using hmsg
          · rcases lb with oe' | oq' | or'
            · -- quantity / entity
              by_cases he' : isEquivalent pq'.unit oe'.quantity.unit = true
              · have hwoe' : wfEntity oe' = true := by
                  simpa [wfLike] using wfColl_getattr _ _ _ hwo hgb
                obtain ⟨si, hsi, hesi⟩ := wfEntity_elim oe' hwoe'
                have hesi_p : isEquivalent si pq'.unit = true := by
                  have h1 : isEquivalent oe'.quantity.unit pq'.unit = true := by
                    simp only [isEquivalent, beq_iff_eq] at he' ⊢
                    rw [he']
                  exact isEquivalent_trans _ _ _ hesi h1
                have hinitP := entityInit_quantity_ok oe'.ontology_label
                  pq' si hsi hesi_p
                have hinitO := entityInit_quantity_ok oe'.ontology_label
                  (oe'.quantity.convertTo pq'.unit) si hsi hesi_p
                have hkp_nd := ioGetattr_like_not_desc _ _ _ hga
                have hko_nd := ioGetattr_like_not_desc _ _ _ hgb
                have hoσ' : oi < List.length
                    (storeSet σ pi (ioSetattr (storeGet σ pi) k
                      (.entity ⟨oe'.ontology_label,
                        pq'.convertTo pq'.unit, ""⟩))) := by
                  simpa [storeSet, List.length_set] using hoσ
                have hrec : ∃ msg, harmonizePass pi oi
                    (storeSet (storeSet σ pi (ioSetattr (storeGet σ pi) k
                      (.entity ⟨oe'.ontology_label,
                        pq'.convertTo pq'.unit, ""⟩))) oi
                      (ioSetattr (storeGet σ oi) k
                        (.entity ⟨oe'.ontology_label,
                          ((oe'.quantity.convertTo pq'.unit).convertTo
                            (oe'.quantity.convertTo pq'.unit).unit), ""⟩)))
                    rest = .error (.valueError msg) := by
                  refine ih _ kbad pe oe ?_ ?_ hmem' ?_ ?_ hlab ?_ ?_ ?_
                  · simpa [storeSet, List.length_set] using hpσ
                  · simpa [storeSet, List.length_set] using hoσ
                  · rw [storeGet_storeSet_ne _ _ _ _ hpo,
                      storeGet_storeSet_self _ _ _ hpσ,
                      ioGetattr_ioSetattr_ne _ _ _ _ (Ne.symm hk)]
                    exact hgp
                  · rw [storeGet_storeSet_self _ _ _ hoσ',
                      ioGetattr_ioSetattr_ne _ _ _ _ (Ne.symm hk)]
                    exact hgo
                  · intro k' hk'
                    obtain ⟨q1, q2⟩ := hpres_rest k' hk'
                    constructor
                    · rw [storeGet_storeSet_ne _ _ _ _ hpo,
                        storeGet_storeSet_self _ _ _ hpσ]
                      by_cases hkk : k' = k
                      · subst hkk
                        rw [ioGetattr_ioSetattr_self _ _ _ hkp_nd]
                        simp
                      · rw [ioGetattr_ioSetattr_ne _ _ _ _ hkk]
                        exact q1
                    · rw [storeGet_storeSet_self _ _ _ hoσ']
                      by_cases hkk : k' = k
                      · subst hkk
                        rw [ioGetattr_ioSetattr_self _ _ _ hko_nd]
                        simp
                      · rw [ioGetattr_ioSetattr_ne _ _ _ _ hkk]
                        exact q2
                  · rw [storeGet_storeSet_ne _ _ _ _ hpo,
                      storeGet_storeSet_self _ _ _ hpσ]
                    exact wfColl_ioSetattr _ _ _ hwp
                      (by simpa [wfLike] using entityInit_wf _ _ _ _ _ hinitP)
                  · rw [storeGet_storeSet_self _ _ _ hoσ']
                    exact wfColl_ioSetattr _ _ _ hwo
                      (by simpa [wfLike] using entityInit_wf _ _ _ _ _ hinitO)
                obtain ⟨msg, hrec⟩ := hrec
                refine ⟨msg, ?_⟩
                unfold harmonizePass
                simp only [hga, hgb]
                rw [if_neg (by simp [he']), hinitP, hinitO]
                exact hrec
              · refine ⟨"incompatible units", ?_⟩
                unfold harmonizePass
                simp only [hga, hgb]
                simp [he']
            · -- quantity / quantity
              by_cases he' : isEquivalent pq'.unit oq'.unit = true
              · obtain ⟨msg, hrec⟩ := setupOther
                  (.quantity (oq'.convertTo pq'.unit)) (by simp [wfLike])
                  (ioGetattr_like_not_desc _ _ _ hgb)
                refine ⟨msg, ?_⟩
                unfold harmonizePass
                simp only [hga, hgb]
                rw [if_neg (by simp [he'])]
                exact hrec
              · refine ⟨"incompatible units", ?_⟩
                unfold harmonizePass
                simp only [hga, hgb]
                simp [he']
            · -- quantity / raw: fall-through
              refine ih σ kbad pe oe hpσ hoσ hmem' hgp hgo hlab hpres_rest
                hwp hwo |>.imp fun msg hmsg => ?_
              unfold harmonizePass
              simp only [hga, hgb]
              simpa using hmsg
          · -- raw / anything: fall-through
            refine ih σ kbad pe oe hpσ hoσ hmem' hgp hgo hlab hpres_rest
              hwp hwo |>.imp fun msg hmsg => ?_
            unfold harmonizePass
            simp only [hga, hgb]
            rcases lb with _ | _ | _ <;> simpa using hmsg
        · -- pref side like, other side descStr: fall-through
          refine ih σ kbad pe oe hpσ hoσ hmem' hgp hgo hlab hpres_rest
            hwp hwo |>.imp fun msg hmsg => ?_
          unfold harmonizePass
          simp only [hga, hgb]
          rcases la with _ | _ | _ <;> simpa using hmsg
      · -- pref side descStr: fall-through
        refine ih σ kbad pe oe hpσ hoσ hmem' hgp hgo hlab hpres_rest
          hwp hwo |>.imp fun msg hmsg => ?_
        unfold harmonizePass
        simp only [hga, hgb]
        rcases b with _ | _ <;> simpa using hmsg

theorem storeGet_append_pair (σ : Store) (a b : IoCollection) :
    storeGet (List.append σ [a, b]) (List.length σ) = a ∧
    storeGet (List.append σ [a, b]) (List.length σ + 1) = b := by
  unfold storeGet
  rw [List.getD_eq_getElem?_getD, List.getD_eq_getElem?_getD, List.append_eq,
    List.getElem?_append_right (Nat.le_refl _),
    List.getElem?_append_right (by omega)]
  simp

/-- C8 (amended): when a name checked by the harmonization pass of
`merge` — a member of the `on` key set if a non-empty `on` is given, else
any name present in both collections — holds entities with different
ontology labels on the two sides, `merge` raises `ValueError` (provided
every checked key is present on both sides and the stored entities are
wellformed, so that no `AttributeError` or conversion error precedes the
label check).  Same-named fields outside a designated `on` key set are
not checked: they are suffixed by the join and keep their own labels. -/
theorem merge_label_conflict (σ : Store) (li ri : ℕ) (kw : MergeKwargs)
    (kbad : String) (pe oe : Entity)
    ( _hli : li < List.length σ) ( _hri : ri < List.length σ)
    (hmem : kbad ∈ matchingKeysOf (mergePref σ li ri kw)
      (mergeOther σ li ri kw) kw)
    (hgp : ioGetattr (mergePref σ li ri kw) kbad =
      some (.like (.entity pe)))
    (hgo : ioGetattr (mergeOther σ li ri kw) kbad =
      some (.like (.entity oe)))
    (hlab : pe.ontology_label ≠ oe.ontology_label)
    (hpres : ∀ k' ∈ matchingKeysOf (mergePref σ li ri kw)
        (mergeOther σ li ri kw) kw,
      (ioGetattr (mergePref σ li ri kw) k').isSome ∧
      (ioGetattr (mergeOther σ li ri kw) k').isSome)
    (hwl : wfColl (storeGet σ li) = true)
    (hwr : wfColl (storeGet σ ri) = true) :
    ∃ msg, (merge σ li ri kw).1 = .error (.valueError msg) := by
  obtain ⟨hfst, hsnd⟩ := storeGet_append_pair σ (deepcopy (storeGet σ li))
    (deepcopy (storeGet σ ri))
  have hp : storeGet
      (List.append σ [deepcopy (storeGet σ li), deepcopy (storeGet σ ri)])
      (List.length σ) = storeGet σ li := hfst
  have ho : storeGet
      (List.append σ [deepcopy (storeGet σ li), deepcopy (storeGet σ ri)])
      (List.length σ + 1) = storeGet σ ri := hsnd
  have hlen1 : List.length σ < List.length
      (List.append σ [deepcopy (storeGet σ li), deepcopy (storeGet σ ri)]) := by
    rw [List.append_eq, List.length_append]
    simp
  have hlen2 : List.length σ + 1 < List.length
      (List.append σ [deepcopy (storeGet σ li), deepcopy (storeGet σ ri)]) := by
    rw [List.append_eq, List.length_append]
    simp
  simp only [merge]
  rcases hb : (match kw.how with
      | some h => h.toLower == "right"
      | none => false) with _ | _
  · -- preferred is left
    have hpref : mergePref σ li ri kw = storeGet σ li := by
      unfold mergePref
      rw [hb]
      simp
    have hother : mergeOther σ li ri kw = storeGet σ ri := by
      unfold mergeOther
      rw [hb]
      simp
    rw [hpref] at hgp
    rw [hother] at hgo
    rw [hpref, hother] at hmem hpres
    obtain ⟨msg, herr⟩ := harmonizePass_label_conflict (List.length σ)
      (List.length σ + 1) (by omega)
      (matchingKeysOf (storeGet σ li) (storeGet σ ri) kw)
      (List.append σ [deepcopy (storeGet σ li), deepcopy (storeGet σ ri)])
      kbad pe oe hlen1 hlen2
      hmem
      (by rw [hp]; exact hgp)
      (by rw [ho]; exact hgo)
      hlab
      (by rw [hp, ho]; exact hpres)
      (by rw [hp]; exact hwl)
      (by rw [ho]; exact hwr)
    refine ⟨msg, ?_⟩
    simp only [hb, Bool.false_eq_true, if_false]
    rw [hp, ho, herr]
  · -- preferred is right
    have hpref : mergePref σ li ri kw = storeGet σ ri := by
      unfold mergePref
      rw [hb]
      simp
    have hother : mergeOther σ li ri kw = storeGet σ li := by
      unfold mergeOther
      rw [hb]
      simp
    rw [hpref] at hgp
    rw [hother] at hgo
    rw [hpref, hother] at hmem hpres
    obtain ⟨msg, herr⟩ := harmonizePass_label_conflict (List.length σ + 1)
      (List.length σ) (by omega)
      (matchingKeysOf (storeGet σ ri) (storeGet σ li) kw)
      (List.append σ [deepcopy (storeGet σ li), deepcopy (storeGet σ ri)])
      kbad pe oe hlen2 hlen1
      hmem
      (by rw [ho]; exact hgp)
      (by rw [hp]; exact hgo)
      hlab
      (by rw [hp, ho]; exact hpres)
      (by rw [ho]; exact hwr)
      (by rw [hp]; exact hwl)
    refine ⟨msg, ?_⟩
    simp only [hb, if_true]
    rw [hp, ho, herr]

/-- C8 counterexample: with `on=["k"]` designated, the same-named field
`f` carries entities with different ontology labels on the two sides, yet
`merge` does not raise `ValueError` — it succeeds, suffixing `f` into
`f_x`/`f_y`, each keeping its own label.  Only the designated `on` keys
are checked by the harmonization pass. -/
theorem merge_on_skips_nonkey_label_conflict :
    ioGetattr mergeCexL "f" = some (.like (.entity
      ⟨"SpontaneousMagnetization", ⟨⟨[1], [1]⟩, AmPerM⟩, ""⟩)) ∧
    ioGetattr mergeCexR "f" = some (.like (.entity
      ⟨"Magnetization", ⟨⟨[1], [1]⟩, AmPerM⟩, ""⟩)) ∧
    ("SpontaneousMagnetization" ≠ "Magnetization") ∧
    (merge [mergeCexL, mergeCexR] 0 1 { onKeys := some ["k"] }).1 =
      .ok ⟨"", [("k", .raw ⟨[1], [.num 1]⟩),
        ("f_x", .entity ⟨"SpontaneousMagnetization", ⟨⟨[1], [1]⟩, AmPerM⟩, ""⟩),
        ("f_y", .entity ⟨"Magnetization", ⟨⟨[1], [1]⟩, AmPerM⟩, ""⟩)]⟩ :=
  ⟨rfl, rfl, by decide, rfl⟩

/-- C8 witness: with no `on` designated, the same conflict on `f` makes
`merge` raise `ValueError`, by the amended theorem applied to a concrete
two-collection store. -/
theorem merge_label_conflict_witness :
    (0 < List.length [mergeCexL, mergeCexR] ∧
     1 < List.length [mergeCexL, mergeCexR] ∧
     "f" ∈ matchingKeysOf (mergePref [mergeCexL, mergeCexR] 0 1 {})
        (mergeOther [mergeCexL, mergeCexR] 0 1 {}) {} ∧
     wfColl (storeGet [mergeCexL, mergeCexR] 0) = true ∧
     wfColl (storeGet [mergeCexL, mergeCexR] 1) = true) ∧
    (∃ msg, (merge [mergeCexL, mergeCexR] 0 1 {}).1 =
      .error (.valueError msg)) :=
  ⟨⟨by decide, by decide, by decide, by decide, by decide⟩,
    merge_label_conflict [mergeCexL, mergeCexR] 0 1 {} "f"
      ⟨"SpontaneousMagnetization", ⟨⟨[1], [1]⟩, AmPerM⟩, ""⟩
      ⟨"Magnetization", ⟨⟨[1], [1]⟩, AmPerM⟩, ""⟩
      (by decide) (by decide) (by decide) rfl rfl (by decide)
      (by decide) (by decide) (by decide)⟩

/-- C9: on the dict-backed collection, attribute-style set/get/delete for
a public name that does not collide with a class member is sugar over the
same entities-dictionary storage as the dict-style interface; for a name
that does collide with a method, attribute access binds the method while
the dict-style interface still stores and retrieves the data entry; and
the `description` property shadows the dict path completely (the
dict-style interface rejects that name). -/
theorem ec_attr_sugar_shadow (c : ECollection) (name : String) (v : AttrVal)
    (hpub : startsWithStr name "_" = false)
    (hcls : name ∉ ecClassAttrs)
    (hinst : assocGet c.instAttrs name = none) :
    (ecSetattr c name v = ecSetitem c name v ∧
     ecSetattr c name v =
       .ok { c with entities := assocSet c.entities name v } ∧
     ecGetattr c name = (match assocGet c.entities name with
       | some w => .ok (.val w)
       | none => .error (.attributeError name)) ∧
     ecDelattr c name = (match assocGet c.entities name with
       | some _ => .ok { c with entities := assocRemove c.entities name }
       | none => .error (.attributeError name))) ∧
    (∀ m ∈ ecClassAttrs, m ≠ "description" →
      assocGet c.instAttrs m = none →
      ecSetitem c m v = .ok { c with entities := assocSet c.entities m v } ∧
      ecGetitem { c with entities := assocSet c.entities m v } m = .ok v ∧
      ecGetattr { c with entities := assocSet c.entities m v } m =
        .ok (.method m) ∧
      (∀ w : AttrVal, ECAttr.method m ≠ ECAttr.val w)) ∧
    (ecGetattr c "description" = .ok (.val (.pyStr c.description)) ∧
     ∀ w : AttrVal, ∃ msg, ecSetitem c "description" w =
       .error (.keyError msg)) := by
  have hname_desc : name ≠ "description" := by
    intro h
    rw [h] at hcls
    exact hcls (by simp [ecClassAttrs])
  have hname_ud : name ≠ "_description" := by
    intro h
    rw [h] at hpub
    exact absurd hpub (by decide)
  have hname_ue : name ≠ "_entities" := by
    intro h
    rw [h] at hpub
    exact absurd hpub (by decide)
  refine ⟨⟨?_, ?_, ?_, ?_⟩, ?_, ?_, ?_⟩
  · unfold ecSetattr
    rw [if_neg (by simp [hpub, hcls])]
  · unfold ecSetattr ecSetitem
    rw [if_neg (by simp [hpub, hcls]), if_neg hname_desc]
  · unfold ecGetattr
    rw [if_neg hname_desc, if_neg hname_ud, if_neg hname_ue, hinst,
      if_neg hcls]
  · unfold ecDelattr
    rw [if_neg (by simp [hpub, hcls])]
  · intro m hm hmd hminst
    have hm_ud : m ≠ "_description" := by
      intro h
      rw [h] at hm
      exact absurd hm (by decide)
    have hm_ue : m ≠ "_entities" := by
      intro h
      rw [h] at hm
      exact absurd hm (by decide)
    refine ⟨?_, ?_, ?_, ?_⟩
    · unfold ecSetitem
      rw [if_neg hmd]
    · unfold ecGetitem
      simp only [assocGet, find?_assocSet_self]
      rfl
    · unfold ecGetattr
      rw [if_neg hmd, if_neg hm_ud, if_neg hm_ue]
      simp only [hminst, if_pos hm]
    · intro w
      simp
  · unfold ecGetattr
    rw [if_pos rfl]
  · intro w
    exact ⟨_, rfl⟩

/-- C9 witness: the theorem applied to a concrete collection holding one
raw entry, the public name Ms and the colliding name to_dataframe. -/
theorem ec_attr_sugar_shadow_witness :
    (startsWithStr "Ms" "_" = false ∧
     "Ms" ∉ ecClassAttrs ∧
     assocGet (ECollection.mk "d" [] [("x", .pyStr "hello")]).instAttrs
       "Ms" = none) ∧
    ((ecSetattr ⟨"d", [], [("x", .pyStr "hello")]⟩ "Ms" (.pyStr "w") =
       ecSetitem ⟨"d", [], [("x", .pyStr "hello")]⟩ "Ms" (.pyStr "w") ∧
      ecSetattr ⟨"d", [], [("x", .pyStr "hello")]⟩ "Ms" (.pyStr "w") =
        .ok ⟨"d", [], assocSet [("x", .pyStr "hello")] "Ms" (.pyStr "w")⟩ ∧
      ecGetattr ⟨"d", [], [("x", .pyStr "hello")]⟩ "Ms" =
        (match assocGet [("x", AttrVal.pyStr "hello")] "Ms" with
         | some w => .ok (.val w)
         | none => .error (.attributeError "Ms")) ∧
      ecDelattr ⟨"d", [], [("x", .pyStr "hello")]⟩ "Ms" =
        (match assocGet [("x", AttrVal.pyStr "hello")] "Ms" with
         | some _ => .ok ⟨"d", [],
             assocRemove [("x", .pyStr "hello")] "Ms"⟩
         | none => .error (.attributeError "Ms"))) ∧
     (∀ m ∈ ecClassAttrs, m ≠ "description" →
       assocGet ([] : List (String × AttrVal)) m = none →
       ecSetitem ⟨"d", [], [("x", .pyStr "hello")]⟩ m (.pyStr "w") =
         .ok ⟨"d", [], assocSet [("x", .pyStr "hello")] m (.pyStr "w")⟩ ∧
       ecGetitem ⟨"d", [],
           assocSet [("x", .pyStr "hello")] m (.pyStr "w")⟩ m =
         .ok (.pyStr "w") ∧
       ecGetattr ⟨"d", [],
           assocSet [("x", .pyStr "hello")] m (.pyStr "w")⟩ m =
         .ok (.method m) ∧
       (∀ w : AttrVal, ECAttr.method m ≠ ECAttr.val w)) ∧
     (ecGetattr ⟨"d", [], [("x", .pyStr "hello")]⟩ "description" =
        .ok (.val (.pyStr "d")) ∧
      ∀ w : AttrVal, ∃ msg,
        ecSetitem ⟨"d", [], [("x", .pyStr "hello")]⟩ "description" w =
          .error (.keyError msg))) :=
  ⟨⟨by decide, by decide, rfl⟩,
    ec_attr_sugar_shadow ⟨"d", [], [("x", .pyStr "hello")]⟩ "Ms"
      (.pyStr "w") (by decide) (by decide) rfl⟩

/-- C10: `from_dataframe` leaves the caller's metadata mapping unchanged —
the mapping at the caller's reference (including its optional
`description` key) is the same before and after the call, whether the
call returns a collection or raises: the `pop` happens on a deep copy
living at a fresh reference. -/
theorem from_dataframe_metadata_frame (df : DataFrame)
    (σ : List ECMetadata) (mi j : ℕ) (hj : j < List.length σ) :
    List.getD (from_dataframe df σ mi).2 j [] = List.getD σ j [] := by
  show List.getD (List.set (List.append σ [List.getD σ mi []])
    (List.length σ) _) j [] = _
  rw [List.getD_eq_getElem?_getD, List.getD_eq_getElem?_getD,
    List.getElem?_set_ne (by omega), List.append_eq,
    List.getElem?_append_left hj, ← List.getD_eq_getElem?_getD]

/-- C10 witness: the frame theorem applied to a one-column dataframe and
a concrete metadata mapping with a description key. -/
theorem from_dataframe_metadata_frame_witness :
    (0 < List.length
      [[("description", MetaVal.descStr "d"),
        ("x", MetaVal.fieldMeta none none none)]]) ∧
    List.getD (from_dataframe [("x", [.num 1])]
      [[("description", MetaVal.descStr "d"),
        ("x", MetaVal.fieldMeta none none none)]] 0).2 0 [] =
    List.getD
      [[("description", MetaVal.descStr "d"),
        ("x", MetaVal.fieldMeta none none none)]] 0 [] :=
  ⟨by decide,
    from_dataframe_metadata_frame [("x", [.num 1])]
      [[("description", MetaVal.descStr "d"),
        ("x", MetaVal.fieldMeta none none none)]] 0 0 (by decide)⟩

theorem splitChars_ne_nil (l : List Char) : splitChars l ≠ [] := by
  cases l with
  | nil => simp [splitChars]
  | cons c rest =>
    simp only [splitChars]
    split
    · simp
    · split <;> simp

theorem joinChars_cons_cons (c : Char) (h : List Char) (t : List (List Char)) :
    joinChars ((c :: h) :: t) = c :: joinChars (h :: t) := by
  cases t <;> rfl

theorem joinChars_splitChars (l : List Char) :
    joinChars (splitChars l) = l := by
  induction l with
  | nil => rfl
  | cons c rest ih =>
    obtain ⟨h, t, hr⟩ := List.exists_cons_of_ne_nil (splitChars_ne_nil rest)
    simp only [splitChars, hr]
    by_cases hc : c = '\n'
    · rw [if_pos hc]
      show '\n' :: joinChars (h :: t) = c :: rest
      rw [← hr, ih, hc]
    · rw [if_neg hc, joinChars_cons_cons, ← hr, ih]

theorem joinLines_splitLines (s : String) : joinLines (splitLines s) = s := by
  show String.mk (joinChars ((((splitChars s.data).map String.mk)).map String.data)) = s
  rw [List.map_map]
  have : (String.data ∘ String.mk) = id := rfl
  rw [this, List.map_id, joinChars_splitChars]

theorem assocSet_append {α : Type} (l : List (String × α)) (n : String) (v : α)
    (h : n ∉ l.map Prod.fst) : assocSet l n v = l ++ [(n, v)] := by
  induction l with
  | nil => rfl
  | cons a rest ih =>
    simp only [List.map_cons, List.mem_cons] at h
    push_neg at h
    simp only [assocSet, if_neg (Ne.symm h.1), List.cons_append, ih h.2]

theorem foldl_ioSetattr (l : List (String × EntityLike)) :
    ∀ (d : String) (acc : List (String × EntityLike)),
      (l.map Prod.fst).Nodup →
      (∀ p ∈ l, p.1 ∉ acc.map Prod.fst) →
      l.foldl (fun c p => ioSetattr c p.1 p.2) ⟨d, acc⟩ = ⟨d, acc ++ l⟩ := by
  induction l with
  | nil => intro d acc _ _; simp
  | cons p rest ih =>
    intro d acc hnd hdis
    simp only [List.map_cons, List.nodup_cons] at hnd
    simp only [List.foldl_cons]
    show List.foldl _ (⟨d, assocSet acc p.1 p.2⟩ : IoCollection) rest = _
    rw [assocSet_append acc p.1 p.2 (hdis p (List.mem_cons_self p rest))]
    rw [ih d (acc ++ [p]) hnd.2]
    · simp
    · intro q hq
      simp only [List.map_append, List.mem_append, List.map_cons, List.map_nil]
      push_neg
      constructor
      · exact hdis q (List.mem_cons_of_mem p hq)
      · intro hmem
        simp only [List.mem_singleton] at hmem
        exact absurd (hmem ▸ (List.mem_map_of_mem Prod.fst hq)) hnd.1

theorem buildIoColl_eq (d : String) (l : List (String × EntityLike))
    (h : (l.map Prod.fst).Nodup) : buildIoColl d l = ⟨d, l⟩ := by
  unfold buildIoColl
  rw [foldl_ioSetattr l d [] h (by simp), List.nil_append]

theorem dropPre_append (pre l : String) : dropPre (pre ++ l) pre = l := by
  unfold dropPre startsWithStr
  rw [if_pos]
  · show String.mk ((pre.data ++ l.data).drop pre.data.length) = l
    rw [List.drop_left]
  · show pre.data.isPrefixOf (pre.data ++ l.data) = true
    rw [List.isPrefixOf_iff_prefix]
    exact List.prefix_append pre.data l.data

theorem takeWhile_all {α : Type} (p : α → Bool) (l : List α)
    (h : ∀ x ∈ l, p x = true) : l.takeWhile p = l := by
  induction l with
  | nil => rfl
  | cons a rest ih =>
    rw [List.takeWhile_cons, if_pos (h a (List.mem_cons_self a rest))]
    rw [ih (fun x hx => h x (List.mem_cons_of_mem a hx))]

theorem getD_unitCellOf (u : MUnit) :
    (unitCellOf u).getD dimensionlessU = u := by
  unfold unitCellOf
  split
  · next h => rw [h]; rfl
  · rfl

theorem wf_label_resolves (e : Entity) (h : wfEntity e = true) :
    ∃ c, getByLabel e.ontology_label = some c ∧
      isEquivalent c.si e.quantity.unit = true := by
  unfold wfEntity at h
  rcases hsi : extractSIUnits e.ontology_label with _ | si
  · rw [hsi] at h; exact absurd h (by simp)
  · rw [hsi] at h
    unfold extractSIUnits at hsi
    rcases hgl : getByLabel e.ontology_label with _ | c
    · rw [hgl] at hsi; exact absurd hsi (by simp)
    · rw [hgl] at hsi
      replace hsi : some c.si = some si := hsi
      injection hsi with hsi
      exact ⟨c, rfl, by rw [hsi]; exact h⟩

theorem wf_label_ne_empty (e : Entity) (h : wfEntity e = true) :
    e.ontology_label ≠ "" := by
  intro hl
  unfold wfEntity at h
  rw [hl] at h
  have hx : extractSIUnits "" = none := rfl
  simp only [hx] at h
  exact Bool.false_ne_true h

theorem entityInit_self (e : Entity) (h : wfEntity e = true) :
    entityInit e.ontology_label (.arr e.quantity.arr)
      (some e.quantity.unit) e.description = .ok e := by
  obtain ⟨c, hgl, hequiv⟩ := wf_label_resolves e h
  have hsi : extractSIUnits e.ontology_label = some c.si := by
    unfold extractSIUnits
    rw [hgl]
    rfl
  show entityInitCore e.ontology_label (.arr e.quantity.arr)
      (some e.quantity.unit) e.description = .ok e
  unfold entityInitCore
  simp only [hsi]
  rw [if_pos hequiv]
  rfl

/-- C5 counterexample: a CSV file whose first line has no version string
is rejected with `RuntimeError` instead of falling back to the oldest
supported version. -/
theorem csv_missing_version_read_fails :
    entitiesFromCsv ⟨"#mammos table", none, [""], [""], [""], [none],
        ["x"], [.nums [1]]⟩ =
      .error (.runtimeError "File does not have version information in line 1.") :=
  rfl

/-- C5: when the first line of a CSV file contains no `v<digits>` version
string, `_entities_from_csv` raises `RuntimeError` - there is no fallback
to an older reading behavior. -/
theorem csv_no_version_error (f : CsvFile)
    (h : findVersion f.firstLine.data = none) :
    entitiesFromCsv f =
      .error (.runtimeError "File does not have version information in line 1.") := by
  unfold entitiesFromCsv
  rw [h]

theorem csv_no_version_error_witness :
    findVersion ("#mammos, version-free").data = none ∧
      entitiesFromCsv ⟨"#mammos, version-free", none, [], [], [], [], [], []⟩ =
        .error (.runtimeError "File does not have version information in line 1.") :=
  ⟨by decide, csv_no_version_error
    ⟨"#mammos, version-free", none, [], [], [], [], [], []⟩ (by decide)⟩

theorem NumArr_eta (a : NumArr) : (⟨a.shape, a.data⟩ : NumArr) = a := rfl

theorem MQuantity_eta (q : MQuantity) : (⟨q.arr, q.unit⟩ : MQuantity) = q := rfl

theorem RawArr_eta (r : RawArr) : (⟨r.shape, r.data⟩ : RawArr) = r := rfl

theorem shapeOk_shape (scalar : Bool) (n : ℕ) (shape : List ℕ) (len : ℕ)
    (h : shapeOk scalar n shape len = true) :
    (if scalar then ([] : List ℕ) else [len]) = shape := by
  cases scalar <;> simp_all [shapeOk]

theorem shapeOk_len (scalar : Bool) (n : ℕ) (shape : List ℕ) (len : ℕ)
    (h : shapeOk scalar n shape len = true) :
    len = (if scalar then 1 else n) := by
  cases scalar <;> simp_all [shapeOk]

theorem shapeOk_dim (scalar : Bool) (n : ℕ) (shape : List ℕ) (len : ℕ)
    (h : shapeOk scalar n shape len = true) :
    shape = [] ∨ shape = [len] := by
  cases scalar <;> simp_all [shapeOk]

theorem shapeOk_scalar (scalar : Bool) (n : ℕ) (shape : List ℕ) (len : ℕ)
    (h : shapeOk scalar n shape len = true) :
    (shape == ([] : List ℕ)) = scalar := by
  cases scalar <;> simp_all [shapeOk]

theorem cells_num_back (data : List Cell)
    (h : (data.all fun c => match c with | .num _ => true | .str _ => false) = true) :
    ((data.filterMap fun c =>
        match c with | .num q => some q | .str _ => none).map Cell.num) = data ∧
      (data.filterMap fun c =>
        match c with | .num q => some q | .str _ => none).length = data.length := by
  induction data with
  | nil => exact ⟨rfl, rfl⟩
  | cons c rest ih =>
    rw [List.all_cons] at h
    rcases c with q | s
    · rw [Bool.and_eq_true] at h
      obtain ⟨ih1, ih2⟩ := ih h.2
      refine ⟨?_, ?_⟩ <;> simp [List.filterMap_cons, ih1, ih2]
    · simp at h

theorem cells_str_back (data : List Cell)
    (h : (data.all fun c => match c with | .num _ => false | .str _ => true) = true) :
    ((data.map fun c =>
        match c with | .num q => toString q | .str s => s).map Cell.str) = data := by
  induction data with
  | nil => rfl
  | cons c rest ih =>
    rw [List.all_cons] at h
    rcases c with q | s
    · simp at h
    · rw [Bool.and_eq_true] at h
      simp only [List.map_cons]
      rw [ih h.2]

/-- One induction along the entity list establishing the whole CSV write
pipeline and its inversion: the metadata records and columns exist, every
record's scalar flag and column length is uniform, and the column reader
reconstructs the original elements. -/
theorem csv_write_read (scalar : Bool) (n : ℕ) :
    ∀ ents : List (String × EntityLike),
      (∀ p ∈ ents, csvEntryOk scalar n p.2 = true) →
      ∃ recs cols,
        csvRecsOf ents = .ok recs ∧
        colsOfRecs recs = .ok cols ∧
        cols.length = ents.length ∧
        (∀ r ∈ recs, isScalarVal r.value = scalar) ∧
        (∀ cd ∈ cols, colLen cd = if scalar then 1 else n) ∧
        readCols scalar (ents.map Prod.fst) (recs.map CsvRec.label)
          (recs.map CsvRec.cdesc) (recs.map CsvRec.iri)
          (recs.map CsvRec.unitCell) cols = .ok ents := by
  intro ents
  induction ents with
  | nil =>
    intro _
    exact ⟨[], [], rfl, rfl, rfl, by simp, by simp, rfl⟩
  | cons p rest ih =>
    intro hok
    obtain ⟨recs, cols, h1, h2, h3, h4, h5, h6⟩ :=
      ih (fun q hq => hok q (List.mem_cons_of_mem p hq))
    have hp := hok p (List.mem_cons_self p rest)
    obtain ⟨nm, v⟩ := p
    rcases v with e | q | r
    · -- an entity column
      simp only [csvEntryOk] at hp
      rw [Bool.and_eq_true] at hp
      obtain ⟨hwf, hshape⟩ := hp
      obtain ⟨c, hgl, hequiv⟩ := wf_label_resolves e hwf
      refine ⟨⟨e.ontology_label, e.description, c.iri,
          unitCellOf e.quantity.unit, .numArr e.quantity.arr⟩ :: recs,
        .nums e.quantity.arr.data :: cols, ?_, ?_, ?_, ?_, ?_, ?_⟩
      · simp only [csvRecsOf, csvRecOf, hgl, h1]
      · simp only [colsOfRecs, colDataOf,
          if_pos (shapeOk_dim scalar n _ _ hshape), h2]
      · simp [h3]
      · intro x hx
        rcases List.mem_cons.mp hx with rfl | hx'
        · exact shapeOk_scalar scalar n _ _ hshape
        · exact h4 x hx'
      · intro x hx
        rcases List.mem_cons.mp hx with rfl | hx'
        · exact shapeOk_len scalar n _ _ hshape
        · exact h5 x hx'
      · simp only [List.map_cons, readCols, colLen]
        rw [if_pos (wf_label_ne_empty e hwf)]
        rw [shapeOk_shape scalar n _ _ hshape, NumArr_eta, getD_unitCellOf,
          entityInit_self e hwf]
        simp only [hgl]
        rw [if_neg (fun hne => hne rfl)]
        simp only [h6]
    · -- a plain quantity column
      simp only [csvEntryOk] at hp
      rw [Bool.and_eq_true] at hp
      obtain ⟨hne', hshape⟩ := hp
      have hne : q.unit ≠ dimensionlessU := of_decide_eq_true hne'
      have hu : unitCellOf q.unit = some q.unit := by
        unfold unitCellOf
        rw [if_neg hne]
      refine ⟨⟨"", "", "", unitCellOf q.unit, .numArr q.arr⟩ :: recs,
        .nums q.arr.data :: cols, ?_, ?_, ?_, ?_, ?_, ?_⟩
      · simp only [csvRecsOf, csvRecOf, h1]
      · simp only [colsOfRecs, colDataOf,
          if_pos (shapeOk_dim scalar n _ _ hshape), h2]
      · simp [h3]
      · intro x hx
        rcases List.mem_cons.mp hx with rfl | hx'
        · exact shapeOk_scalar scalar n _ _ hshape
        · exact h4 x hx'
      · intro x hx
        rcases List.mem_cons.mp hx with rfl | hx'
        · exact shapeOk_len scalar n _ _ hshape
        · exact h5 x hx'
      · simp only [List.map_cons, readCols, colLen]
        rw [if_neg (fun hne2 : ("" : String) ≠ "" => hne2 rfl)]
        simp only [hu]
        rw [shapeOk_shape scalar n _ _ hshape, NumArr_eta, MQuantity_eta]
        simp only [h6]
    · -- a raw column
      simp only [csvEntryOk] at hp
      rw [Bool.and_eq_true] at hp
      obtain ⟨hshape, hcells⟩ := hp
      by_cases hnum : (r.data.all fun c =>
          match c with | .num _ => true | .str _ => false) = true
      · obtain ⟨hback, hlen⟩ := cells_num_back r.data hnum
        refine ⟨⟨"", "", "", none, .rawArr r⟩ :: recs,
          .nums (r.data.filterMap fun c =>
            match c with | .num q => some q | .str _ => none) :: cols,
          ?_, ?_, ?_, ?_, ?_, ?_⟩
        · simp only [csvRecsOf, csvRecOf, h1]
        · simp only [colsOfRecs, colDataOf,
            if_pos (shapeOk_dim scalar n _ _ hshape), hnum, if_true, h2]
        · simp [h3]
        · intro x hx
          rcases List.mem_cons.mp hx with rfl | hx'
          · exact shapeOk_scalar scalar n _ _ hshape
          · exact h4 x hx'
        · intro x hx
          rcases List.mem_cons.mp hx with rfl | hx'
          · show colLen (.nums _) = _
            simp only [colLen]
            rw [hlen]
            exact shapeOk_len scalar n _ _ hshape
          · exact h5 x hx'
        · simp only [List.map_cons, readCols, colLen, colCells]
          rw [if_neg (fun hne2 : ("" : String) ≠ "" => hne2 rfl)]
          rw [hlen, hback, shapeOk_shape scalar n _ _ hshape, RawArr_eta]
          simp only [h6]
      · have hstr : (r.data.all fun c =>
            match c with | .num _ => false | .str _ => true) = true := by
          rw [Bool.or_eq_true] at hcells
          rcases hcells with hn | hs
          · exact absurd hn hnum
          · rw [Bool.and_eq_true] at hs
            exact hs.1
        have hback := cells_str_back r.data hstr
        refine ⟨⟨"", "", "", none, .rawArr r⟩ :: recs,
          .strs (r.data.map fun c =>
            match c with | .num q => toString q | .str s => s) :: cols,
          ?_, ?_, ?_, ?_, ?_, ?_⟩
        · simp only [csvRecsOf, csvRecOf, h1]
        · have hnum' : (r.data.all fun c =>
              match c with | .num _ => true | .str _ => false) = false :=
            Bool.eq_false_iff.mpr hnum
          simp only [colsOfRecs, colDataOf,
            if_pos (shapeOk_dim scalar n _ _ hshape), hnum',
            Bool.false_eq_true, if_false, h2]
        · simp [h3]
        · intro x hx
          rcases List.mem_cons.mp hx with rfl | hx'
          · exact shapeOk_scalar scalar n _ _ hshape
          · exact h4 x hx'
        · intro x hx
          rcases List.mem_cons.mp hx with rfl | hx'
          · show colLen (.strs _) = _
            simp only [colLen, List.length_map]
            exact shapeOk_len scalar n _ _ hshape
          · exact h5 x hx'
        · simp only [List.map_cons, readCols, colLen, colCells, List.length_map]
          rw [if_neg (fun hne2 : ("" : String) ≠ "" => hne2 rfl)]
          rw [hback, shapeOk_shape scalar n _ _ hshape, RawArr_eta]
          simp only [h6]

/-- One induction along the entity list establishing the YAML write
pipeline and its inversion: the items exist and the item reader
reconstructs the original elements. -/
theorem yaml_write_read :
    ∀ ents : List (String × EntityLike),
      (∀ p ∈ ents, yamlEntryOk p.2 = true) →
      ∃ items,
        yamlItemsOf ents = .ok items ∧
        items.length = ents.length ∧
        readYamlItems 2 items = .ok ents := by
  intro ents
  induction ents with
  | nil =>
    intro _
    exact ⟨[], rfl, rfl, rfl⟩
  | cons p rest ih =>
    intro hok
    obtain ⟨items, h1, h2, h3⟩ :=
      ih (fun q hq => hok q (List.mem_cons_of_mem p hq))
    have hp := hok p (List.mem_cons_self p rest)
    obtain ⟨nm, v⟩ := p
    rcases v with e | q | r
    · simp only [yamlEntryOk] at hp
      obtain ⟨c, hgl, hequiv⟩ := wf_label_resolves e hp
      refine ⟨(nm, ⟨some e.ontology_label, some e.description, some c.iri,
          some e.quantity.unit, .numArr e.quantity.arr⟩) :: items,
        ?_, by simp [h2], ?_⟩
      · simp only [yamlItemsOf, yamlItemOf, hgl, h1]
      · simp only [readYamlItems]
        have hd : (if 2 ≤ 2 then (some e.description).isNone
            else (some e.description).isSome) = false := by simp
        simp only [hd]
        rw [if_neg Bool.false_ne_true]
        simp only [yamlValNums, Option.getD_some]
        rw [entityInit_self e hp]
        simp only [hgl]
        rw [if_neg (fun hne => hne rfl)]
        simp only [h3]
    · refine ⟨(nm, ⟨none, some "", none, some q.unit, .numArr q.arr⟩) :: items,
        ?_, by simp [h2], ?_⟩
      · simp only [yamlItemsOf, yamlItemOf, h1]
      · simp only [readYamlItems]
        have hd : (if 2 ≤ 2 then (some "").isNone
            else (some "").isSome) = false := by simp
        simp only [hd]
        rw [if_neg Bool.false_ne_true]
        simp only [yamlValNums]
        rw [MQuantity_eta]
        simp only [h3]
    · refine ⟨(nm, ⟨none, some "", none, none, .rawArr r⟩) :: items,
        ?_, by simp [h2], ?_⟩
      · simp only [yamlItemsOf, yamlItemOf, h1]
      · simp only [readYamlItems]
        have hd : (if 2 ≤ 2 then (some "").isNone
            else (some "").isSome) = false := by simp
        simp only [hd]
        rw [if_neg Bool.false_ne_true]
        simp only [yamlValRaw, h3]

/-- C1 counterexample: the CSV round trip is not the identity.  A
collection holding a bare dimensionless quantity is written with an empty
unit cell, and on reading the `elif unit:` branch treats the empty unit
string as no unit at all: the value comes back as a raw array, no longer
a quantity. -/
theorem csv_round_trip_drops_quantity :
    roundTrip ".csv"
        ⟨"", [("x", .quantity ⟨⟨[], [5]⟩, dimensionlessU⟩)]⟩ =
      .ok ⟨"", [("x", .raw ⟨[], [.num 5]⟩)]⟩ ∧
    (IoCollection.mk "" [("x", .raw ⟨[], [.num 5]⟩)]) ≠
      ⟨"", [("x", .quantity ⟨⟨[], [5]⟩, dimensionlessU⟩)]⟩ :=
  ⟨rfl, by decide⟩

/-- C1: the write/read round trip reproduces the collection exactly, for
both formats, on their admissible domains: the collection is non-empty
with distinct names; for CSV the description lines are reader-stable, the
values are uniformly scalar or uniformly one-dimensional of a common
length other than one, quantities carry a non-empty (non-dimensionless)
unit, entities are wellformed, and raw columns are numeric or genuinely
textual; for YAML only wellformed entities are required. -/
theorem io_round_trip (c : IoCollection)
    (hne : c.attrs ≠ [])
    (hnd : (c.attrs.map Prod.fst).Nodup) :
    (csvOk c → roundTrip ".csv" c = .ok c) ∧
    ((∀ p ∈ c.attrs, yamlEntryOk p.2 = true) → roundTrip ".yaml" c = .ok c) := by
  constructor
  · rintro ⟨hdesc, scalar, n, hs1, hs2, hentry⟩
    obtain ⟨recs, cols, h1, h2, h3, h4, h5, h6⟩ :=
      csv_write_read scalar n c.attrs hentry
    have hscalarmix : ¬ ((recs.any fun r => isScalarVal r.value) = true ∧
        ¬ (recs.all fun r => isScalarVal r.value) = true) := by
      cases scalar
      · rintro ⟨hany, -⟩
        rw [List.any_eq_true] at hany
        obtain ⟨r, hr, hists⟩ := hany
        rw [h4 r hr] at hists
        exact Bool.false_ne_true hists
      · rintro ⟨-, hall⟩
        apply hall
        rw [List.all_eq_true]
        exact fun r hr => h4 r hr
    have hlencheck : (cols.all fun cd =>
        decide (colLen cd = colLen (cols.headD (.nums [])))) = true := by
      cases cols with
      | nil => rfl
      | cons c0 cs =>
        rw [List.all_eq_true]
        intro cd hcd
        rw [decide_eq_true_eq, h5 cd hcd, List.headD_cons,
          h5 c0 (List.mem_cons_self c0 cs)]
    have hwrite : entitiesToCsv c.description c.attrs = .ok ⟨"#mammos csv v3",
        (if c.description = "" then none
         else some ((splitLines c.description).map (fun l => "# " ++ l))),
        recs.map CsvRec.label, recs.map CsvRec.cdesc, recs.map CsvRec.iri,
        recs.map CsvRec.unitCell, c.attrs.map Prod.fst, cols⟩ := by
      unfold entitiesToCsv
      simp only [h1]
      rw [if_neg hscalarmix]
      simp only [h2]
      rw [if_pos hlencheck]
    obtain ⟨c0, cs, hcols⟩ : ∃ c0 cs, cols = c0 :: cs := by
      cases cols with
      | nil =>
        exfalso
        apply hne
        have := h3
        simp only [List.length_nil] at this
        exact List.eq_nil_of_length_eq_zero this.symm
      | cons c0 cs => exact ⟨c0, cs, rfl⟩
    subst hcols
    have hflag : (colLen c0 == 1) = scalar := by
      rw [h5 c0 (List.mem_cons_self c0 cs)]
      cases scalar
      · rw [if_neg Bool.false_ne_true]
        exact beq_eq_false_iff_ne.mpr (hs2 rfl)
      · rfl
    have hread : entitiesFromCsv ⟨"#mammos csv v3",
        (if c.description = "" then none
         else some ((splitLines c.description).map (fun l => "# " ++ l))),
        recs.map CsvRec.label, recs.map CsvRec.cdesc, recs.map CsvRec.iri,
        recs.map CsvRec.unitCell, c.attrs.map Prod.fst, c0 :: cs⟩ = .ok c := by
      unfold entitiesFromCsv
      have hv : findVersion ("#mammos csv v3").data = some 3 := by decide
      simp only [hv]
      rw [if_neg (by decide : ¬((3 : ℕ) = 0 ∨ 4 ≤ (3 : ℕ)))]
      rw [if_neg (by decide : ¬((3 : ℕ) ≤ 2))]
      have hdlines : (match (if c.description = "" then none
          else some ((splitLines c.description).map (fun l => "# " ++ l))) with
        | some lines =>
          (lines.takeWhile (fun l => ¬ containsSub l "#--")).map
            (fun l => dropPre (pyStrip l) "# ")
        | none => ([] : List String)) = splitLines c.description ∨
          ((match (if c.description = "" then none
          else some ((splitLines c.description).map (fun l => "# " ++ l))) with
        | some lines =>
          (lines.takeWhile (fun l => ¬ containsSub l "#--")).map
            (fun l => dropPre (pyStrip l) "# ")
        | none => ([] : List String)) = [] ∧ c.description = "") := by
        by_cases hde : c.description = ""
        · right
          rw [if_pos hde]
          exact ⟨rfl, hde⟩
        · left
          rw [if_neg hde]
          show ((((splitLines c.description).map (fun l => "# " ++ l)).takeWhile
              (fun l => decide ¬(containsSub l "#--" = true))).map
              (fun l => dropPre (pyStrip l) "# ")) = splitLines c.description
          rw [takeWhile_all]
          · rw [List.map_map]
            rw [List.map_congr_left (g := id)]
            · exact List.map_id (splitLines c.description)
            · intro l0 hl0
              have hok0 : descLineOk l0 = true := by
                unfold descOk at hdesc
                rw [List.all_eq_true] at hdesc
                exact hdesc l0 hl0
              unfold descLineOk at hok0
              rw [Bool.and_eq_true] at hok0
              obtain ⟨hstrip, -⟩ := hok0
              show dropPre (pyStrip ("# " ++ l0)) "# " = l0
              rw [beq_iff_eq] at hstrip
              rw [hstrip, dropPre_append]
          · intro l0 hl0
            rw [List.mem_map] at hl0
            obtain ⟨a, ha, rfl⟩ := hl0
            have hok0 : descLineOk a = true := by
              unfold descOk at hdesc
              rw [List.all_eq_true] at hdesc
              exact hdesc a ha
            unfold descLineOk at hok0
            rw [Bool.and_eq_true] at hok0
            obtain ⟨-, hnc⟩ := hok0
            rw [Bool.not_eq_true'] at hnc
            simp [hnc]
      rcases hdlines with hd | ⟨hd, hde⟩
      · simp only [hd, hflag, h6, joinLines_splitLines]
        rw [buildIoColl_eq _ _ hnd]
      · simp only [hd, hflag, h6]
        have hjn : joinLines [] = "" := rfl
        rw [hjn, ← hde, buildIoColl_eq _ _ hnd]
    show roundTrip ".csv" c = .ok c
    unfold roundTrip toFile entitiesToFile
    rw [if_neg hne, if_pos rfl]
    simp only [hwrite]
    exact hread
  · intro hentry
    obtain ⟨items, h1, h2, h3⟩ := yaml_write_read c.attrs hentry
    show roundTrip ".yaml" c = .ok c
    unfold roundTrip toFile entitiesToFile
    rw [if_neg hne]
    rw [if_neg (by decide : ¬((".yaml" : String) = ".csv"))]
    rw [if_pos (by decide :
      ((".yaml" : String) = ".yml" ∨ (".yaml" : String) = ".yaml"))]
    unfold entitiesToYaml
    simp only [h1]
    show entitiesFromYaml ⟨"v2", c.description, items⟩ = .ok c
    unfold entitiesFromYaml
    rw [if_neg (by decide :
      ¬(("v2" : String) ≠ "v1" ∧ ("v2" : String) ≠ "v2"))]
    rw [if_neg (show ¬(items = []) by
      intro hit
      apply hne
      rw [hit] at h2
      simp only [List.length_nil] at h2
      exact List.eq_nil_of_length_eq_zero h2.symm)]
    simp only [if_true, h3]
    rw [buildIoColl_eq _ _ hnd]

theorem io_round_trip_witness :
    roundTrip ".csv" ⟨"Test data",
        [("Ms", .entity ⟨"SpontaneousMagnetization", ⟨⟨[], [8]⟩, AmPerM⟩, "m"⟩),
         ("alpha", .quantity ⟨⟨[], [2]⟩, teslaU⟩),
         ("note", .raw ⟨[], [.str "hi"]⟩)]⟩ =
      .ok ⟨"Test data",
        [("Ms", .entity ⟨"SpontaneousMagnetization", ⟨⟨[], [8]⟩, AmPerM⟩, "m"⟩),
         ("alpha", .quantity ⟨⟨[], [2]⟩, teslaU⟩),
         ("note", .raw ⟨[], [.str "hi"]⟩)]⟩ ∧
    roundTrip ".yaml" ⟨"Test data",
        [("Ms", .entity ⟨"SpontaneousMagnetization", ⟨⟨[], [8]⟩, AmPerM⟩, "m"⟩),
         ("alpha", .quantity ⟨⟨[], [2]⟩, teslaU⟩),
         ("note", .raw ⟨[], [.str "hi"]⟩)]⟩ =
      .ok ⟨"Test data",
        [("Ms", .entity ⟨"SpontaneousMagnetization", ⟨⟨[], [8]⟩, AmPerM⟩, "m"⟩),
         ("alpha", .quantity ⟨⟨[], [2]⟩, teslaU⟩),
         ("note", .raw ⟨[], [.str "hi"]⟩)]⟩ := by
  refine ⟨(io_round_trip _ (by decide) (by decide)).1
      ⟨by decide, true, 1, fun _ => rfl, by simp, by decide⟩,
    (io_round_trip _ (by decide) (by decide)).2 (by decide)⟩

end MammosEntity